import Mathlib

/-!
Verification of the UBF (Unified Buffer Format) core of the endurox-rust
repository: the typed self-describing record buffer (`endurox-sys/src/ubf.rs`),
the struct-mapping conversions (`endurox-sys/src/ubf_struct.rs` and the code
generated by `endurox-derive/src/lib.rs`), and the generic marshal/unmarshal
codec.

The Rust code under `src/` is a thin safe wrapper: the buffer manipulation
itself (`Badd`, `Bchg`, `CBget`, `Bdel`, `Bpres`, `Bused`, `Bunused`,
`Bsizeof`, `Binit`, `tpalloc`) is delegated to the external Enduro/X C
library, whose sources are not part of the repository (only the `extern`
declarations in `ffi.rs` are).  Those operations are therefore modelled from
the specification (sections 3, 4.2 and 6 of the spec); every such definition
carries a doc comment starting with `Modelled from the spec:`.  Everything
the wrapper layer itself decides (error message construction, the fixed
1024-byte staging buffer of `get_string`, the interior-NUL check of
`CString::new`, `as_bytes` slicing exactly `used()` bytes, buffer capacities
chosen by `to_ubf`/`marshal`) is translated directly from the Rust source.

Conventions of the embedding:
* strings are modelled as sequences of code points, one wire token per
  code point (the byte/char distinction of UTF-8 is not modelled; all
  concrete inputs below are ASCII, where the two coincide);
* `f64` values are modelled as their 64-bit patterns (a natural number
  below 2^64); the buffer stores and returns them verbatim, and equality
  of doubles is equality of bit patterns;
* `c_long` / `i64` values are modelled as integers, stored in the buffer
  as their two's-complement 64-bit pattern;
* the byte-level wire encoding is owned by the external collaborator and
  declared opaque by the spec ("opaque-but-stable"); it is modelled here as
  an explicit token encoding carrying a 16-token header (allocated size and
  used count, which is how `Bsizeof`/`Bused` answer on a reconstructed
  buffer) followed by the entries in storage order.
-/

set_option maxRecDepth 8192

deriving instance DecidableEq for Except

namespace Endurox

/-- Width bound of the model for `c_long` values and `f64` bit patterns. -/
def word : Nat := 2 ^ 64

/-- Modelled from the spec: little-endian base-256 token encoding of a
natural number, `k` tokens wide (the concrete layout is owned by the
external collaborator; any stable injective layout is admissible). -/
def encBase : Nat → Nat → List Nat
  | 0, _ => []
  | k + 1, n => n % 256 :: encBase k (n / 256)

/-- Modelled from the spec: decode `k` little-endian base-256 tokens,
returning the value and the remaining tokens. -/
def decBase : Nat → List Nat → Option (Nat × List Nat)
  | 0, rest => some (0, rest)
  | _ + 1, [] => none
  | k + 1, t :: rest =>
    match decBase k rest with
    | some (m, r) => some (t + 256 * m, r)
    | none => none

theorem encBase_length (k n : Nat) : (encBase k n).length = k := by
  induction k generalizing n with
  | zero => rfl
  | succ k ih => simp [encBase, ih]

theorem decBase_encBase (k n : Nat) (rest : List Nat) :
    decBase k (encBase k n ++ rest) = some (n % 256 ^ k, rest) := by
  induction k generalizing n with
  | zero => simp [encBase, decBase, Nat.mod_one]
  | succ k ih =>
    have hmm : n % 256 ^ (k + 1) = n % 256 + 256 * (n / 256 % 256 ^ k) := by
      have h : (256 : Nat) ^ (k + 1) = 256 * 256 ^ k := by ring
      rw [h, Nat.mod_mul]
    simp [encBase, decBase, ih, hmm]

theorem decBase_encBase_of_lt (k n : Nat) (rest : List Nat) (h : n < 256 ^ k) :
    decBase k (encBase k n ++ rest) = some (n, rest) := by
  rw [decBase_encBase, Nat.mod_eq_of_lt h]

/-- Field value stored in a buffer entry, as the wrapper layer can produce
them: strings (`add_string`), longs (`add_long`, stored as two's-complement
bit patterns) and doubles (`add_double`, stored as `f64` bit patterns). -/
inductive UbfVal where
  | vstr (s : String)
  | vlong (bits : Nat)
  | vdbl (bits : Nat)
deriving DecidableEq

/- UBF field type tags, from `endurox-sys/src/ffi.rs`. -/

def BFLD_SHORT : Nat := 0
def BFLD_LONG : Nat := 1
def BFLD_CHAR : Nat := 2
def BFLD_FLOAT : Nat := 3
def BFLD_DOUBLE : Nat := 4
def BFLD_STRING : Nat := 5
def BFLD_CARRAY : Nat := 6

/-- Type tag a stored value answers to. -/
def UbfVal.typeTag : UbfVal → Nat
  | .vstr _ => BFLD_STRING
  | .vlong _ => BFLD_LONG
  | .vdbl _ => BFLD_DOUBLE

/-- Modelled from the spec: a field identifier carries its type tag in the
high bits; `167773162 = 5 * 2^25 + 1002` is documented in `build.rs` as the
generated constant for field number 1002 of type string. -/
def fldType (fid : Nat) : Nat := fid / 2 ^ 25

/-- Construct a field identifier from a type tag and a field number,
following the scheme decoded by `fldType`. -/
def mkFldId (ty num : Nat) : Nat := ty * 2 ^ 25 + num

/-- Modelled from the spec: token encoding of one stored value (tag, then
the payload; strings are length-prefixed). -/
def encVal : UbfVal → List Nat
  | .vstr s => BFLD_STRING :: (encBase 8 s.length ++ s.data.map Char.toNat)
  | .vlong bits => BFLD_LONG :: encBase 8 bits
  | .vdbl bits => BFLD_DOUBLE :: encBase 8 bits

/-- Modelled from the spec: token encoding of one `(field_id, value)` entry. -/
def encEntry (e : Nat × UbfVal) : List Nat := encBase 8 e.1 ++ encVal e.2

/-- Number of wire tokens an entry occupies. -/
def entryLen (e : Nat × UbfVal) : Nat := (encEntry e).length

theorem entryLen_vstr (fid : Nat) (s : String) :
    entryLen (fid, .vstr s) = 17 + s.length := by
  simp [entryLen, encEntry, encVal, encBase_length]
  omega

theorem entryLen_vlong (fid bits : Nat) :
    entryLen (fid, .vlong bits) = 17 := by
  simp [entryLen, encEntry, encVal, encBase_length]

theorem entryLen_vdbl (fid bits : Nat) :
    entryLen (fid, .vdbl bits) = 17 := by
  simp [entryLen, encEntry, encVal, encBase_length]

theorem entryLen_pos (e : Nat × UbfVal) : 17 ≤ entryLen e := by
  obtain ⟨fid, v⟩ := e
  cases v with
  | vstr s => rw [entryLen_vstr]; omega
  | vlong bits => rw [entryLen_vlong]
  | vdbl bits => rw [entryLen_vdbl]

/-- Modelled from the spec: decode `k` string tokens back into characters. -/
def decChars : Nat → List Nat → Option (List Char × List Nat)
  | 0, rest => some ([], rest)
  | _ + 1, [] => none
  | k + 1, t :: rest =>
    match decChars k rest with
    | some (cs, r) => some (Char.ofNat t :: cs, r)
    | none => none

theorem decChars_map (l : List Char) (rest : List Nat) :
    decChars l.length (l.map Char.toNat ++ rest) = some (l, rest) := by
  induction l with
  | nil => simp [decChars]
  | cons c cs ih => simp [decChars, ih, Char.ofNat_toNat]

/-- Modelled from the spec: decode one entry from the token stream. -/
def decEntry (ts : List Nat) : Option ((Nat × UbfVal) × List Nat) :=
  match decBase 8 ts with
  | none => none
  | some (fid, r1) =>
    match r1 with
    | [] => none
    | tag :: r2 =>
      if tag = BFLD_STRING then
        match decBase 8 r2 with
        | none => none
        | some (len, r3) =>
          match decChars len r3 with
          | none => none
          | some (cs, r4) => some ((fid, .vstr (String.mk cs)), r4)
      else if tag = BFLD_LONG then
        match decBase 8 r2 with
        | none => none
        | some (bits, r3) => some ((fid, .vlong bits), r3)
      else if tag = BFLD_DOUBLE then
        match decBase 8 r2 with
        | none => none
        | some (bits, r3) => some ((fid, .vdbl bits), r3)
      else none

/-- Well-formedness of a stored value: its numeric payloads fit the wire
widths.  Every value the wrapper can store satisfies this. -/
def UbfVal.wf : UbfVal → Prop
  | .vstr s => s.length < word
  | .vlong bits => bits < word
  | .vdbl bits => bits < word

/-- Well-formedness of an entry. -/
def entryWF (e : Nat × UbfVal) : Prop := e.1 < word ∧ e.2.wf

instance : DecidablePred UbfVal.wf := by
  intro v
  cases v <;> simp [UbfVal.wf] <;> infer_instance

instance (e : Nat × UbfVal) : Decidable (entryWF e) := by
  unfold entryWF; infer_instance

theorem word_eq : word = 256 ^ 8 := by decide

theorem decEntry_encEntry (e : Nat × UbfVal) (rest : List Nat)
    (hwf : entryWF e) :
    decEntry (encEntry e ++ rest) = some (e, rest) := by
  obtain ⟨fid, v⟩ := e
  obtain ⟨hfid, hv⟩ := hwf
  rw [word_eq] at hfid
  cases v with
  | vstr s =>
    have hlen : s.length < 256 ^ 8 := by rw [← word_eq]; exact hv
    have h1 : decBase 8 (encEntry (fid, UbfVal.vstr s) ++ rest)
        = some (fid, encVal (.vstr s) ++ rest) := by
      rw [encEntry, List.append_assoc]
      exact decBase_encBase_of_lt 8 fid _ hfid
    rw [decEntry, h1]
    simp only [encVal, BFLD_STRING, List.cons_append]
    rw [List.append_assoc]
    rw [decBase_encBase_of_lt 8 s.length _ hlen]
    simp only [if_pos rfl]
    have hdc : decChars s.length (s.data.map Char.toNat ++ rest)
        = some (s.data, rest) := by
      have h := decChars_map s.data rest
      rwa [show s.data.length = s.length from rfl] at h
    rw [hdc]
    cases s
    rfl
  | vlong bits =>
    have hb : bits < 256 ^ 8 := by rw [← word_eq]; exact hv
    have h1 : decBase 8 (encEntry (fid, UbfVal.vlong bits) ++ rest)
        = some (fid, encVal (.vlong bits) ++ rest) := by
      rw [encEntry, List.append_assoc]
      exact decBase_encBase_of_lt 8 fid _ hfid
    rw [decEntry, h1]
    simp only [encVal, BFLD_LONG, BFLD_STRING, List.cons_append]
    rw [decBase_encBase_of_lt 8 bits _ hb]
    norm_num
  | vdbl bits =>
    have hb : bits < 256 ^ 8 := by rw [← word_eq]; exact hv
    have h1 : decBase 8 (encEntry (fid, UbfVal.vdbl bits) ++ rest)
        = some (fid, encVal (.vdbl bits) ++ rest) := by
      rw [encEntry, List.append_assoc]
      exact decBase_encBase_of_lt 8 fid _ hfid
    rw [decEntry, h1]
    simp only [encVal, BFLD_DOUBLE, BFLD_STRING, BFLD_LONG, List.cons_append]
    rw [decBase_encBase_of_lt 8 bits _ hb]
    norm_num

/-- Modelled from the spec: decode a sequence of entries (fuel-bounded;
one entry always consumes at least one token). -/
def decEntries : Nat → List Nat → Option (List (Nat × UbfVal))
  | _, [] => some []
  | 0, _ :: _ => none
  | fuel + 1, ts =>
    match decEntry ts with
    | none => none
    | some (e, rest) =>
      match decEntries fuel rest with
      | some es => some (e :: es)
      | none => none

/-- Concatenated encoding of an entry list. -/
def encEntries (es : List (Nat × UbfVal)) : List Nat := es.flatMap encEntry

theorem encEntry_ne_nil (e : Nat × UbfVal) : encEntry e ≠ [] := by
  intro h
  have := entryLen_pos e
  rw [entryLen, h] at this
  simp at this

theorem decEntries_encEntries (es : List (Nat × UbfVal)) (fuel : Nat)
    (hfuel : es.length ≤ fuel) (hwf : ∀ e ∈ es, entryWF e) :
    decEntries fuel (encEntries es) = some es := by
  induction es generalizing fuel with
  | nil => cases fuel <;> simp [decEntries, encEntries]
  | cons e es ih =>
    cases fuel with
    | zero => simp at hfuel
    | succ fuel =>
      have hne : encEntry e ++ encEntries es ≠ [] := by
        intro h
        exact encEntry_ne_nil e (List.append_eq_nil.mp h).1
      have hdec := decEntry_encEntry e (encEntries es) (hwf e (by simp))
      have hf2 : es.length ≤ fuel := by simp at hfuel; omega
      have hrec := ih fuel hf2
        (fun x hx => hwf x (List.mem_cons_of_mem e hx))
      rw [encEntries, List.flatMap_cons, ← encEntries]
      match hts : encEntry e ++ encEntries es, hne with
      | t :: ts, _ =>
        rw [decEntries, ← hts, hdec]
        · simp [hrec]
        · simp

/-- Modelled from the spec: the observable state of a typed buffer — its
total allocated capacity and the ordered list of `(field_id, value)`
entries (occurrences of one identifier are its entries in list order,
matching the spec's "insertion order is preserved"). -/
structure UbfBuf where
  size : Nat
  entries : List (Nat × UbfVal)
deriving DecidableEq

/-- Tokens of the header that precedes the entries in the wire encoding
(it records the allocated size and the used count). -/
def headerSize : Nat := 16

/-- Modelled from the spec: `Bused` — tokens occupied by the header plus
the encoded entries. -/
def UbfBuf.usedBytes (b : UbfBuf) : Nat :=
  headerSize + (b.entries.map entryLen).sum

/-- Modelled from the spec: the occurrences stored under one identifier,
in storage order. -/
def UbfBuf.occList (b : UbfBuf) (fid : Nat) : List UbfVal :=
  (b.entries.filter (fun e => e.1 = fid)).map (fun e => e.2)

/-- Modelled from the spec: the value at `(fid, occ)`, when present. -/
def UbfBuf.occVal (b : UbfBuf) (fid occ : Nat) : Option UbfVal :=
  (b.occList fid)[occ]?

/-- Well-formedness of a buffer: capacity fits the wire width, the used
count never exceeds the capacity, and every entry is well formed.  All
buffers reachable through the API satisfy this. -/
def UbfBuf.wf (b : UbfBuf) : Prop :=
  b.size < word ∧ b.usedBytes ≤ b.size ∧ ∀ e ∈ b.entries, entryWF e

instance (b : UbfBuf) : Decidable b.wf := by
  unfold UbfBuf.wf; infer_instance

/-- Modelled from the spec: `Binit`/`tpalloc` — allocate and initialise an
empty buffer of the requested capacity (fails when the capacity cannot
even hold the header, or exceeds the address width). -/
def Binit (len : Nat) : Option UbfBuf :=
  if headerSize ≤ len ∧ len < word then some ⟨len, []⟩ else none

/-- Modelled from the spec: `Badd` — append a new occurrence.  Fails when
the identifier is invalid or its embedded type tag mismatches the value's
type, or when the encoded entry does not fit in the remaining capacity. -/
def Badd (b : UbfBuf) (fid : Nat) (v : UbfVal) : Option UbfBuf :=
  if fid < 2 ^ 32 ∧ fldType fid = v.typeTag then
    if b.usedBytes + entryLen (fid, v) ≤ b.size then
      some ⟨b.size, b.entries ++ [(fid, v)]⟩
    else none
  else none

/-- Replace the `occ`-th entry carrying `fid` in an entry list; `none`
when that occurrence does not exist. -/
def chgAt : List (Nat × UbfVal) → Nat → Nat → UbfVal → Option (List (Nat × UbfVal))
  | [], _, _, _ => none
  | e :: rest, fid, occ, v =>
    if e.1 = fid then
      if occ = 0 then some ((fid, v) :: rest)
      else
        match chgAt rest fid (occ - 1) v with
        | some l => some (e :: l)
        | none => none
    else
      match chgAt rest fid occ v with
      | some l => some (e :: l)
      | none => none

/-- Modelled from the spec: `Bchg` — overwrite an existing occurrence in
place (with the same identifier validity and capacity checks as `Badd`).
The spec leaves the behaviour on an absent occurrence implementation
defined (fail or append); the model takes the failing branch. -/
def Bchg (b : UbfBuf) (fid occ : Nat) (v : UbfVal) : Option UbfBuf :=
  if fid < 2 ^ 32 ∧ fldType fid = v.typeTag then
    match chgAt b.entries fid occ v with
    | some l =>
      if headerSize + (l.map entryLen).sum ≤ b.size then some ⟨b.size, l⟩
      else none
    | none => none
  else none

/-- Remove the `occ`-th entry carrying `fid` from an entry list; `none`
when that occurrence does not exist. -/
def delAt : List (Nat × UbfVal) → Nat → Nat → Option (List (Nat × UbfVal))
  | [], _, _ => none
  | e :: rest, fid, occ =>
    if e.1 = fid then
      if occ = 0 then some rest
      else
        match delAt rest fid (occ - 1) with
        | some l => some (e :: l)
        | none => none
    else
      match delAt rest fid occ with
      | some l => some (e :: l)
      | none => none

/-- Modelled from the spec: `Bdel` — remove one occurrence, subsequent
occurrences of the same identifier shifting down by one; fails when the
occurrence is absent. -/
def Bdel (b : UbfBuf) (fid occ : Nat) : Option UbfBuf :=
  match delAt b.entries fid occ with
  | some l => some ⟨b.size, l⟩
  | none => none

/-- Modelled from the spec: `Bpres` — presence test, never fails. -/
def Bpres (b : UbfBuf) (fid occ : Nat) : Bool :=
  occ < (b.occList fid).length

/-- Two's-complement reading of a 64-bit pattern (the value `get_long`
reports for stored bits). -/
def decodeI64 (bits : Nat) : Int :=
  if bits < 2 ^ 63 then (bits : Int) else (bits : Int) - (word : Int)

/-- Two's-complement 64-bit pattern of an integer (the bits `add_long`
stores). -/
def encodeI64 (i : Int) : Nat := (i % (word : Int)).toNat

theorem encodeI64_lt_word (i : Int) : encodeI64 i < word := by
  have h1 : 0 ≤ i % (word : Int) := Int.emod_nonneg i (by decide)
  have h2 : i % (word : Int) < (word : Int) := Int.emod_lt_of_pos i (by decide)
  unfold encodeI64
  omega

theorem decodeI64_encodeI64 (i : Int) (h1 : -(2 ^ 63) ≤ i) (h2 : i < 2 ^ 63) :
    decodeI64 (encodeI64 i) = i := by
  unfold decodeI64 encodeI64
  have hw : ((word : Nat) : Int) = 18446744073709551616 := by
    rw [word]; norm_num
  rw [hw]
  norm_num at h1 h2 ⊢
  split <;> omega

/-- Decimal digit character of a digit value (values above nine clamp,
never produced below). -/
def digitChar : Nat → Char
  | 0 => '0'
  | 1 => '1'
  | 2 => '2'
  | 3 => '3'
  | 4 => '4'
  | 5 => '5'
  | 6 => '6'
  | 7 => '7'
  | 8 => '8'
  | _ => '9'

/-- Digit value of a decimal digit character. -/
def charDigit (c : Char) : Option Nat :=
  if c = '0' then some 0
  else if c = '1' then some 1
  else if c = '2' then some 2
  else if c = '3' then some 3
  else if c = '4' then some 4
  else if c = '5' then some 5
  else if c = '6' then some 6
  else if c = '7' then some 7
  else if c = '8' then some 8
  else if c = '9' then some 9
  else none

/-- Little-endian decimal digits of `n`, fuel-bounded (structurally
recursive so that concrete encodings evaluate). -/
def natDigitsRev (fuel : Nat) (n : Nat) : List Nat :=
  match fuel with
  | 0 => []
  | fuel + 1 => if n = 0 then [] else n % 10 :: natDigitsRev fuel (n / 10)

/-- Decimal rendering of a natural number (most significant digit first). -/
def natToChars (n : Nat) : List Char :=
  if n = 0 then ['0'] else ((natDigitsRev n n).reverse).map digitChar

/-- Split the leading run of decimal digits. -/
def takeDigits : List Char → List Nat × List Char
  | [] => ([], [])
  | c :: rest =>
    match charDigit c with
    | some d =>
      let p := takeDigits rest
      (d :: p.1, p.2)
    | none => ([], c :: rest)

/-- Parse a leading decimal natural number; fails when no digit leads. -/
def parseNatL (l : List Char) : Option (Nat × List Char) :=
  match takeDigits l with
  | ([], _) => none
  | (ds, r) => some (Nat.ofDigits 10 ds.reverse, r)

/-- Decimal rendering of an integer. -/
def intToChars (i : Int) : List Char :=
  if i < 0 then '-' :: natToChars (-i).toNat else natToChars i.toNat

/-- Parse a leading decimal integer with optional minus sign. -/
def parseIntL (l : List Char) : Option (Int × List Char) :=
  match l with
  | '-' :: rest =>
    match parseNatL rest with
    | some (n, r) => some (-(n : Int), r)
    | none => none
  | _ =>
    match parseNatL l with
    | some (n, r) => some ((n : Int), r)
    | none => none

/-- Modelled from the spec: conversion of a stored value to the string
shape `CBget` is asked for with `BFLD_STRING` ("converting the stored
representation to the requested type"); the spec fixes no text format, so
longs render as decimal and doubles render their bit pattern. -/
def strOfVal : UbfVal → String
  | .vstr s => s
  | .vlong bits => String.mk (intToChars (decodeI64 bits))
  | .vdbl bits => String.mk (natToChars bits)

/-- Modelled from the spec: conversion of a stored value to the long shape
`CBget` is asked for with `BFLD_LONG`; strings parse a leading decimal,
doubles are abstracted to the two's-complement reading of their bits (the
spec fixes no numeric semantics for the bit-level double model). -/
def longOfVal : UbfVal → Int
  | .vstr s =>
    match parseIntL s.data with
    | some (i, _) => i
    | none => 0
  | .vlong bits => decodeI64 bits
  | .vdbl bits => decodeI64 bits

/-- Modelled from the spec: conversion of a stored value to the double
shape `CBget` is asked for with `BFLD_DOUBLE` (bit pattern; cross-type
conversions abstracted as for `longOfVal`). -/
def dblOfVal : UbfVal → Nat
  | .vstr _ => 0
  | .vlong bits => bits
  | .vdbl bits => bits

/-- Modelled from the spec: `CBget` with `BFLD_STRING` into a staging
buffer of `maxlen` bytes — fails when the occurrence is absent, or when
the converted string plus its NUL terminator does not fit the staging
buffer. -/
def CBgetStr (b : UbfBuf) (fid occ maxlen : Nat) : Option String :=
  match b.occVal fid occ with
  | some v =>
    let s := strOfVal v
    if s.length + 1 ≤ maxlen then some s else none
  | none => none

/-- Modelled from the spec: `CBget` with `BFLD_LONG` (the 8-byte output
always fits the wrapper's staging variable). -/
def CBgetLong (b : UbfBuf) (fid occ : Nat) : Option Int :=
  (b.occVal fid occ).map longOfVal

/-- Modelled from the spec: `CBget` with `BFLD_DOUBLE`. -/
def CBgetDbl (b : UbfBuf) (fid occ : Nat) : Option Nat :=
  (b.occVal fid occ).map dblOfVal

/-- The NUL character. -/
def nulChar : Char := Char.ofNat 0

/-- Interior-NUL test: `CString::new` in the wrapper fails exactly when
the provided string contains a NUL character. -/
def hasNul (s : String) : Bool := decide (nulChar ∈ s.data)

namespace UbfBuffer

/-- `UbfBuffer::new` from `ubf.rs` (tpalloc then Binit). -/
def new (sz : Nat) : Except String UbfBuf :=
  match Binit sz with
  | some b => .ok b
  | none => .error "Failed to initialize UBF buffer"

/-- `UbfBuffer::add_string` from `ubf.rs`. -/
def add_string (b : UbfBuf) (field_id : Nat) (value : String) : Except String UbfBuf :=
  if hasNul value then .error "nul byte found in provided data"
  else
    match Badd b field_id (.vstr value) with
    | some b2 => .ok b2
    | none => .error ("Failed to add string field " ++ toString field_id)

/-- `UbfBuffer::add_long` from `ubf.rs` (the i64 is handed to Badd as its
two's-complement pattern). -/
def add_long (b : UbfBuf) (field_id : Nat) (value : Int) : Except String UbfBuf :=
  match Badd b field_id (.vlong (encodeI64 value)) with
  | some b2 => .ok b2
  | none => .error ("Failed to add long field " ++ toString field_id)

/-- `UbfBuffer::add_double` from `ubf.rs` (the f64 is handed to Badd as
its bit pattern). -/
def add_double (b : UbfBuf) (field_id : Nat) (value : Nat) : Except String UbfBuf :=
  match Badd b field_id (.vdbl (value % word)) with
  | some b2 => .ok b2
  | none => .error ("Failed to add double field " ++ toString field_id)

/-- `UbfBuffer::change_string` from `ubf.rs`. -/
def change_string (b : UbfBuf) (field_id occ : Nat) (value : String) : Except String UbfBuf :=
  if hasNul value then .error "nul byte found in provided data"
  else
    match Bchg b field_id occ (.vstr value) with
    | some b2 => .ok b2
    | none =>
      .error ("Failed to change string field " ++ toString field_id
        ++ " at occ " ++ toString occ)

/-- `UbfBuffer::get_string` from `ubf.rs`: CBget with BFLD_STRING staged
through a fixed 1024-byte vector. -/
def get_string (b : UbfBuf) (field_id occ : Nat) : Except String String :=
  match CBgetStr b field_id occ 1024 with
  | some s => .ok s
  | none =>
    .error ("Failed to get string field " ++ toString field_id
      ++ " at occ " ++ toString occ)

/-- `UbfBuffer::get_long` from `ubf.rs`. -/
def get_long (b : UbfBuf) (field_id occ : Nat) : Except String Int :=
  match CBgetLong b field_id occ with
  | some v => .ok v
  | none =>
    .error ("Failed to get long field " ++ toString field_id
      ++ " at occ " ++ toString occ)

/-- `UbfBuffer::get_double` from `ubf.rs`. -/
def get_double (b : UbfBuf) (field_id occ : Nat) : Except String Nat :=
  match CBgetDbl b field_id occ with
  | some v => .ok v
  | none =>
    .error ("Failed to get double field " ++ toString field_id
      ++ " at occ " ++ toString occ)

/-- `UbfBuffer::is_present` from `ubf.rs`. -/
def is_present (b : UbfBuf) (field_id occ : Nat) : Bool := Bpres b field_id occ

/-- `UbfBuffer::delete` from `ubf.rs`. -/
def delete (b : UbfBuf) (field_id occ : Nat) : Except String UbfBuf :=
  match Bdel b field_id occ with
  | some b2 => .ok b2
  | none =>
    .error ("Failed to delete field " ++ toString field_id
      ++ " at occ " ++ toString occ)

/-- `UbfBuffer::used` from `ubf.rs` (Bused). -/
def used (b : UbfBuf) : Nat := b.usedBytes

/-- `UbfBuffer::unused` from `ubf.rs` (Bunused). -/
def unused (b : UbfBuf) : Nat := b.size - b.usedBytes

/-- `UbfBuffer::size` from `ubf.rs` (Bsizeof; note the Rust method reads
the live header, not the struct field). -/
def size (b : UbfBuf) : Nat := b.size

/-- `UbfBuffer::as_bytes` from `ubf.rs`: exactly the first `used()` bytes
of the backing region — the header followed by the encoded entries. -/
def as_bytes (b : UbfBuf) : List Nat :=
  encBase 8 b.size ++ encBase 8 b.usedBytes ++ encEntries b.entries

/-- `UbfBuffer::from_bytes` from `ubf.rs`: allocate and copy the data; the
observable size is what the copied header reports (Bsizeof reads the
header), the entries are the ones encoded after the header. -/
def from_bytes (data : List Nat) : Except String UbfBuf :=
  match decBase 8 data with
  | none => .error "Failed to allocate UBF buffer"
  | some (sz, r1) =>
    match decBase 8 r1 with
    | none => .error "Failed to allocate UBF buffer"
    | some (_, r2) =>
      match decEntries r2.length r2 with
      | some es => .ok ⟨sz, es⟩
      | none => .error "Failed to allocate UBF buffer"

end UbfBuffer

/- Field identifiers: generated constants from the ubftab field table.
`build.rs` documents `T_NAME_FLD = ((BFLDID32)167773162) /* number: 1002
type: string */`, i.e. `5 * 2^25 + 1002`; the remaining constants follow
the same scheme with the numbers and types used across the repository. -/

def T_NAME_FLD : Nat := mkFldId BFLD_STRING 1002

def T_STATUS_FLD : Nat := mkFldId BFLD_STRING 1004

def T_ID_FLD : Nat := mkFldId BFLD_LONG 1012

def T_PRICE_FLD : Nat := mkFldId BFLD_DOUBLE 1021

/-- Modelled from the spec: the reserved catch-all string field of the
generic codec (`T_DATA_FLD`); its exact field number is not under `src/`,
only its string type matters. -/
def T_DATA_FLD : Nat := mkFldId BFLD_STRING 1030

/-- `UbfError` from `ubf_struct.rs`. -/
inductive UbfError where
  | fieldNotFound (msg : String)
  | typeError (msg : String)
  | allocationError (msg : String)
  | invalidValue (msg : String)
deriving DecidableEq

/-- Error text built by the getters `derive_ubf_struct` generates: it
names the native field and the buffer identifier, then the underlying
accessor error. -/
def mkFieldErr (fname : String) (fid : Nat) (inner : String) : String :=
  "Field " ++ fname ++ " (" ++ toString fid ++ "): " ++ inner

/-- String-field getter generated by `generate_field_getter`
(`endurox-derive/src/lib.rs`): with a declared default every accessor
error is swallowed (`unwrap_or_else`), without one it propagates as
`FieldNotFound` naming the native field and the identifier. -/
def getStringField (b : UbfBuf) (fname : String) (fid : Nat)
    (dflt : Option String) : Except UbfError String :=
  match UbfBuffer.get_string b fid 0, dflt with
  | .ok s, _ => .ok s
  | .error _, some d => .ok d
  | .error e, none => .error (.fieldNotFound (mkFieldErr fname fid e))

/-- Integer-field getter generated by `generate_field_getter` (defaults
are not supported for non-string fields). -/
def getLongField (b : UbfBuf) (fname : String) (fid : Nat) :
    Except UbfError Int :=
  match UbfBuffer.get_long b fid 0 with
  | .ok v => .ok v
  | .error e => .error (.fieldNotFound (mkFieldErr fname fid e))

/-- Float-field getter generated by `generate_field_getter` (defaults are
not supported for non-string fields). -/
def getDoubleField (b : UbfBuf) (fname : String) (fid : Nat) :
    Except UbfError Nat :=
  match UbfBuffer.get_double b fid 0 with
  | .ok v => .ok v
  | .error e => .error (.fieldNotFound (mkFieldErr fname fid e))

/-- String-field setter generated by `generate_field_setter`: an add
failure becomes a `TypeError` naming the native field. -/
def setStringField (b : UbfBuf) (fname : String) (fid : Nat) (v : String) :
    Except UbfError UbfBuf :=
  match UbfBuffer.add_string b fid v with
  | .ok b2 => .ok b2
  | .error e => .error (.typeError ("Field " ++ fname ++ ": " ++ e))

/-- Integer-field setter generated by `generate_field_setter`. -/
def setLongField (b : UbfBuf) (fname : String) (fid : Nat) (v : Int) :
    Except UbfError UbfBuf :=
  match UbfBuffer.add_long b fid v with
  | .ok b2 => .ok b2
  | .error e => .error (.typeError ("Field " ++ fname ++ ": " ++ e))

/-- Float-field setter generated by `generate_field_setter`. -/
def setDoubleField (b : UbfBuf) (fname : String) (fid : Nat) (v : Nat) :
    Except UbfError UbfBuf :=
  match UbfBuffer.add_double b fid v with
  | .ok b2 => .ok b2
  | .error e => .error (.typeError ("Field " ++ fname ++ ": " ++ e))

/-- The `Transaction` mapping of `ubf_struct.rs` and the derive example:
`name` at `T_NAME_FLD`, `id` at `T_ID_FLD`, `amount` at `T_PRICE_FLD`
(f64 bit pattern), `status` at `T_STATUS_FLD` with default `"pending"`. -/
structure Transaction where
  name : String
  id : Int
  amount : Nat
  status : String
deriving DecidableEq

/-- `from_ubf` for `Transaction`, as `derive_ubf_struct` generates it
(the hand-written impl in `ubf_struct.rs` behaves identically on the
success paths: `unwrap_or_else` gives `status` its default). -/
def Transaction.from_ubf (b : UbfBuf) : Except UbfError Transaction := do
  let name ← getStringField b "name" T_NAME_FLD none
  let id ← getLongField b "id" T_ID_FLD
  let amount ← getDoubleField b "amount" T_PRICE_FLD
  let status ← getStringField b "status" T_STATUS_FLD (some "pending")
  pure ⟨name, id, amount, status⟩

/-- `update_ubf` for `Transaction`: four typed adds, first failure wins. -/
def Transaction.update_ubf (t : Transaction) (b : UbfBuf) :
    Except UbfError UbfBuf := do
  let b1 ← setStringField b "name" T_NAME_FLD t.name
  let b2 ← setLongField b1 "id" T_ID_FLD t.id
  let b3 ← setDoubleField b2 "amount" T_PRICE_FLD t.amount
  setStringField b3 "status" T_STATUS_FLD t.status

/-- `to_ubf` for `Transaction`: fresh 2048-byte buffer, then
`update_ubf`. -/
def Transaction.to_ubf (t : Transaction) : Except UbfError UbfBuf :=
  match UbfBuffer.new 2048 with
  | .ok b => t.update_ubf b
  | .error e => .error (.allocationError e)

/-- `RequestData` from `ubf_struct.rs` (`amount` is the f64 bit pattern,
`metadata` the optional sub-field). -/
structure RequestData where
  operation : String
  user_id : Int
  amount : Nat
  metadata : Option String
deriving DecidableEq

/-- Escaping of one character inside an encoded string: the delimiter,
the escape character and NUL get two-character escapes (the code's JSON
encoder likewise never emits an interior NUL). -/
def escChar (c : Char) : List Char :=
  if c = '"' then ['\\', '"']
  else if c = '\\' then ['\\', '\\']
  else if c = nulChar then ['\\', '0']
  else [c]

/-- Escape a character sequence. -/
def escStr (l : List Char) : List Char := l.flatMap escChar

/-- Undo a two-character escape. -/
def unescChar (c : Char) : Char := if c = '0' then Char.ofNat 0 else c

/-- Parse an escaped string up to its closing unescaped delimiter. -/
def parseQuoted : List Char → Option (List Char × List Char)
  | [] => none
  | '"' :: rest => some ([], rest)
  | '\\' :: [] => none
  | '\\' :: c :: rest =>
    (parseQuoted rest).map (fun p => (unescChar c :: p.1, p.2))
  | c :: rest =>
    (parseQuoted rest).map (fun p => (c :: p.1, p.2))

/-- Rendering of the optional metadata field: an absent value has a
distinct one-character rendering, a present one is a quoted escaped
string. -/
def metaChars : Option String → List Char
  | none => ['n']
  | some s => '"' :: (escStr s.data ++ ['"'])

/-- Modelled from the spec: the generic structured-data encoding of a
`RequestData` value into a single string (serde_json in the code; the
spec fixes no concrete text format, only that nested and optional fields
are preserved). -/
def encodeReq (v : RequestData) : String :=
  String.mk ('{' :: '"' :: (escStr v.operation.data ++ '"' :: ',' ::
    (intToChars v.user_id ++ ',' :: (natToChars v.amount ++ ',' ::
      (metaChars v.metadata ++ ['}'])))))

/-- Expect one literal character. -/
def expectChar (c : Char) : List Char → Option (List Char)
  | [] => none
  | x :: rest => if x = c then some rest else none

/-- Parse the optional-metadata rendering. -/
def parseMeta : List Char → Option (Option String × List Char)
  | 'n' :: rest => some (none, rest)
  | '"' :: rest => (parseQuoted rest).map (fun p => (some (String.mk p.1), p.2))
  | _ => none

/-- Modelled from the spec: decoder of the generic structured-data
encoding; fails on any shape mismatch. -/
def decodeReq (s : String) : Option RequestData := do
  let r1 ← expectChar '{' s.data
  let r2 ← expectChar '"' r1
  let (op, r3) ← parseQuoted r2
  let r4 ← expectChar ',' r3
  let (uid, r5) ← parseIntL r4
  let r6 ← expectChar ',' r5
  let (amt, r7) ← parseNatL r6
  let r8 ← expectChar ',' r7
  let (meta, r9) ← parseMeta r8
  let r10 ← expectChar '}' r9
  match r10 with
  | [] => some ⟨String.mk op, uid, amt, meta⟩
  | _ => none

/-- `marshal` from `ubf_struct.rs`: serialize to the generic encoding,
allocate a buffer of `json.len() + 1024`, store the text under
`T_DATA_FLD`. -/
def marshal (v : RequestData) : Except UbfError UbfBuf :=
  let json := encodeReq v
  match UbfBuffer.new (json.length + 1024) with
  | .error e => .error (.allocationError e)
  | .ok b =>
    match UbfBuffer.add_string b T_DATA_FLD json with
    | .ok b2 => .ok b2
    | .error e => .error (.typeError ("Failed to add JSON: " ++ e))

/-- `unmarshal` from `ubf_struct.rs`: read `T_DATA_FLD` (`FieldNotFound`
when absent), then decode (`TypeError` when the shape mismatches). -/
def unmarshal (b : UbfBuf) : Except UbfError RequestData :=
  match UbfBuffer.get_string b T_DATA_FLD 0 with
  | .error e => .error (.fieldNotFound ("T_DATA_FLD: " ++ e))
  | .ok s =>
    match decodeReq s with
    | some v => .ok v
    | none => .error (.typeError "JSON deserialization failed")

/-- One call of the Typed Buffer API, as a reachable-state generator. -/
inductive Op where
  | addStr (fid : Nat) (s : String)
  | addLong (fid : Nat) (n : Int)
  | addDbl (fid : Nat) (bits : Nat)
  | chgStr (fid occ : Nat) (s : String)
  | del (fid occ : Nat)
  | getStr (fid occ : Nat)
  | getLong (fid occ : Nat)
  | getDbl (fid occ : Nat)
  | pres (fid occ : Nat)

/-- Effect of one call on the buffer: a failing call leaves the buffer
unchanged (the wrapper returns `Err` without touching it) and a read-only
call never changes it. -/
def applyOp (b : UbfBuf) : Op → UbfBuf
  | .addStr fid s =>
    match UbfBuffer.add_string b fid s with
    | .ok b2 => b2
    | .error _ => b
  | .addLong fid n =>
    match UbfBuffer.add_long b fid n with
    | .ok b2 => b2
    | .error _ => b
  | .addDbl fid bits =>
    match UbfBuffer.add_double b fid bits with
    | .ok b2 => b2
    | .error _ => b
  | .chgStr fid occ s =>
    match UbfBuffer.change_string b fid occ s with
    | .ok b2 => b2
    | .error _ => b
  | .del fid occ =>
    match UbfBuffer.delete b fid occ with
    | .ok b2 => b2
    | .error _ => b
  | .getStr _ _ => b
  | .getLong _ _ => b
  | .getDbl _ _ => b
  | .pres _ _ => b

/-- Run a call sequence from a starting buffer. -/
def runOps (b : UbfBuf) (ops : List Op) : UbfBuf := ops.foldl applyOp b

/-- Whether a call is an add/change/delete — the only calls the spec
allows to change `used`. -/
def Op.isMutator : Op → Bool
  | .addStr _ _ => true
  | .addLong _ _ => true
  | .addDbl _ _ => true
  | .chgStr _ _ _ => true
  | .del _ _ => true
  | _ => false

/-- The build calls of the wire round-trip claim: add and change only. -/
def Op.isBuild : Op → Bool
  | .addStr _ _ => true
  | .addLong _ _ => true
  | .addDbl _ _ => true
  | .chgStr _ _ _ => true
  | _ => false

theorem two_pow_32_lt_word : 2 ^ 32 < word := by decide

theorem entryLen_le_sum (l : List (Nat × UbfVal)) (e : Nat × UbfVal)
    (h : e ∈ l) : entryLen e ≤ (l.map entryLen).sum := by
  induction l with
  | nil => simp at h
  | cons x xs ih =>
    rcases List.mem_cons.mp h with rfl | hx
    · simp
    · have := ih hx
      simp
      omega

theorem vstr_wf_of_fit (fid : Nat) (s : String) (l : List (Nat × UbfVal))
    (sz : Nat) (hmem : (fid, UbfVal.vstr s) ∈ l)
    (hfit : headerSize + (l.map entryLen).sum ≤ sz) (hsz : sz < word) :
    (UbfVal.vstr s).wf := by
  have h1 := entryLen_le_sum l (fid, .vstr s) hmem
  rw [entryLen_vstr] at h1
  simp [UbfVal.wf]
  omega

theorem Binit_wf (n : Nat) (b : UbfBuf) (h : Binit n = some b) : b.wf := by
  unfold Binit at h
  split at h
  · rename_i hc
    obtain ⟨h1, h2⟩ := hc
    cases h
    refine ⟨h2, ?_, by intro e he; simp at he⟩
    simpa [UbfBuf.usedBytes] using h1
  · cases h

theorem Badd_wf (b : UbfBuf) (fid : Nat) (v : UbfVal) (b2 : UbfBuf)
    (hb : b.wf) (h : Badd b fid v = some b2)
    (hnum : ∀ bits, v = .vlong bits ∨ v = .vdbl bits → bits < word) :
    b2.wf := by
  obtain ⟨hsz, hused, hent⟩ := hb
  unfold Badd at h
  split at h
  · split at h
    · rename_i hty hfit
      cases h
      refine ⟨hsz, ?_, ?_⟩
      · simp [UbfBuf.usedBytes] at *
        omega
      · intro e he
        rcases List.mem_append.mp he with hold | hnew
        · exact hent e hold
        · simp at hnew
          subst hnew
          refine ⟨by have := two_pow_32_lt_word; omega, ?_⟩

          cases v with
          | vstr s =>
            apply vstr_wf_of_fit fid s (b.entries ++ [(fid, UbfVal.vstr s)]) b.size
            · simp
            · simp [UbfBuf.usedBytes] at *
              omega
            · exact hsz
          | vlong bits => exact hnum bits (Or.inl rfl)
          | vdbl bits => exact hnum bits (Or.inr rfl)
    · cases h
  · cases h

theorem chgAt_mem (l : List (Nat × UbfVal)) (fid occ : Nat) (v : UbfVal)
    (l2 : List (Nat × UbfVal)) (h : chgAt l fid occ v = some l2) :
    ∀ e ∈ l2, e ∈ l ∨ e = (fid, v) := by
  induction l generalizing occ l2 with
  | nil => simp [chgAt] at h
  | cons x xs ih =>
    unfold chgAt at h
    split at h
    · split at h
      · cases h
        intro e he
        rcases List.mem_cons.mp he with rfl | hx
        · right; rfl
        · left; simp [hx]
      · rename_i hx hocc
        cases hrec : chgAt xs fid (occ - 1) v with
        | none => rw [hrec] at h; cases h
        | some l3 =>
          rw [hrec] at h
          cases h
          intro e he
          rcases List.mem_cons.mp he with rfl | hx2
          · left; simp
          · rcases ih (occ - 1) l3 hrec e hx2 with h1 | h2
            · left; simp [h1]
            · right; exact h2
    · rename_i hx
      cases hrec : chgAt xs fid occ v with
      | none => rw [hrec] at h; cases h
      | some l3 =>
        rw [hrec] at h
        cases h
        intro e he
        rcases List.mem_cons.mp he with rfl | hx2
        · left; simp
        · rcases ih occ l3 hrec e hx2 with h1 | h2
          · left; simp [h1]
          · right; exact h2

theorem Bchg_wf (b : UbfBuf) (fid occ : Nat) (v : UbfVal) (b2 : UbfBuf)
    (hb : b.wf) (h : Bchg b fid occ v = some b2)
    (hnum : ∀ bits, v = .vlong bits ∨ v = .vdbl bits → bits < word) :
    b2.wf := by
  obtain ⟨hsz, hused, hent⟩ := hb
  unfold Bchg at h
  split at h
  · rename_i hty
    cases hrec : chgAt b.entries fid occ v with
    | none => rw [hrec] at h; cases h
    | some l2 =>
      rw [hrec] at h
      dsimp only at h
      by_cases hfit : headerSize + (l2.map entryLen).sum ≤ b.size
      · rw [if_pos hfit] at h
        cases h
        refine ⟨hsz, by simpa [UbfBuf.usedBytes] using hfit, ?_⟩
        intro e he
        rcases chgAt_mem b.entries fid occ v l2 hrec e he with hold | hnew
        · exact hent e hold
        · subst hnew
          refine ⟨by have := two_pow_32_lt_word; omega, ?_⟩
          cases v with
          | vstr s =>
            exact vstr_wf_of_fit fid s l2 b.size he hfit hsz
          | vlong bits => exact hnum bits (Or.inl rfl)
          | vdbl bits => exact hnum bits (Or.inr rfl)
      · rw [if_neg hfit] at h
        cases h
  · cases h

theorem delAt_mem (l : List (Nat × UbfVal)) (fid occ : Nat)
    (l2 : List (Nat × UbfVal)) (h : delAt l fid occ = some l2) :
    ∀ e ∈ l2, e ∈ l := by
  induction l generalizing occ l2 with
  | nil => simp [delAt] at h
  | cons x xs ih =>
    unfold delAt at h
    split at h
    · split at h
      · cases h
        intro e he
        simp [he]
      · cases hrec : delAt xs fid (occ - 1) with
        | none => rw [hrec] at h; cases h
        | some l3 =>
          rw [hrec] at h
          cases h
          intro e he
          rcases List.mem_cons.mp he with rfl | hx2
          · simp
          · simp [ih (occ - 1) l3 hrec e hx2]
    · cases hrec : delAt xs fid occ with
      | none => rw [hrec] at h; cases h
      | some l3 =>
        rw [hrec] at h
        cases h
        intro e he
        rcases List.mem_cons.mp he with rfl | hx2
        · simp
        · simp [ih occ l3 hrec e hx2]

theorem delAt_sum_le (l : List (Nat × UbfVal)) (fid occ : Nat)
    (l2 : List (Nat × UbfVal)) (h : delAt l fid occ = some l2) :
    (l2.map entryLen).sum ≤ (l.map entryLen).sum := by
  induction l generalizing occ l2 with
  | nil => simp [delAt] at h
  | cons x xs ih =>
    unfold delAt at h
    split at h
    · split at h
      · cases h
        simp
      · cases hrec : delAt xs fid (occ - 1) with
        | none => rw [hrec] at h; cases h
        | some l3 =>
          rw [hrec] at h
          cases h
          have := ih (occ - 1) l3 hrec
          simp
          omega
    · cases hrec : delAt xs fid occ with
      | none => rw [hrec] at h; cases h
      | some l3 =>
        rw [hrec] at h
        cases h
        have := ih occ l3 hrec
        simp
        omega

theorem Bdel_wf (b : UbfBuf) (fid occ : Nat) (b2 : UbfBuf)
    (hb : b.wf) (h : Bdel b fid occ = some b2) : b2.wf := by
  obtain ⟨hsz, hused, hent⟩ := hb
  unfold Bdel at h
  cases hrec : delAt b.entries fid occ with
  | none => rw [hrec] at h; cases h
  | some l2 =>
    rw [hrec] at h
    cases h
    refine ⟨hsz, ?_, ?_⟩
    · have := delAt_sum_le b.entries fid occ l2 hrec
      simp [UbfBuf.usedBytes] at *
      omega
    · intro e he
      exact hent e (delAt_mem b.entries fid occ l2 hrec e he)

theorem applyOp_wf (b : UbfBuf) (op : Op) (hb : b.wf) : (applyOp b op).wf := by
  cases op with
  | addStr fid s =>
    simp only [applyOp]
    by_cases hnul : hasNul s = true
    · simp [UbfBuffer.add_string, hnul]
      exact hb
    · cases hba : Badd b fid (.vstr s) with
      | none =>
        simp [UbfBuffer.add_string, hnul, hba]
        exact hb
      | some b2 =>
        simp [UbfBuffer.add_string, hnul, hba]
        exact Badd_wf b fid _ b2 hb hba (by intro bits hc; rcases hc with h | h <;> cases h)
  | addLong fid n =>
    simp only [applyOp, UbfBuffer.add_long]
    cases hba : Badd b fid (.vlong (encodeI64 n)) with
    | none => simp [hba]; exact hb
    | some b2 =>
      simp [hba]
      refine Badd_wf b fid _ b2 hb hba ?_
      intro bits hc
      rcases hc with h | h
      · cases h; exact encodeI64_lt_word n
      · cases h
  | addDbl fid bits =>
    simp only [applyOp, UbfBuffer.add_double]
    cases hba : Badd b fid (.vdbl (bits % word)) with
    | none => simp [hba]; exact hb
    | some b2 =>
      simp [hba]
      refine Badd_wf b fid _ b2 hb hba ?_
      intro bits2 hc
      rcases hc with h | h
      · cases h
      · cases h
        exact Nat.mod_lt _ (by decide)
  | chgStr fid occ s =>
    simp only [applyOp]
    by_cases hnul : hasNul s = true
    · simp [UbfBuffer.change_string, hnul]
      exact hb
    · cases hba : Bchg b fid occ (.vstr s) with
      | none =>
        simp [UbfBuffer.change_string, hnul, hba]
        exact hb
      | some b2 =>
        simp [UbfBuffer.change_string, hnul, hba]
        exact Bchg_wf b fid occ _ b2 hb hba
          (by intro bits hc; rcases hc with h | h <;> cases h)
  | del fid occ =>
    simp only [applyOp, UbfBuffer.delete]
    cases hba : Bdel b fid occ with
    | none => simp [hba]; exact hb
    | some b2 =>
      simp [hba]
      exact Bdel_wf b fid occ b2 hb hba
  | getStr fid occ => exact hb
  | getLong fid occ => exact hb
  | getDbl fid occ => exact hb
  | pres fid occ => exact hb

theorem runOps_wf (b : UbfBuf) (ops : List Op) (hb : b.wf) :
    (runOps b ops).wf := by
  induction ops generalizing b with
  | nil => exact hb
  | cons op ops ih =>
    rw [runOps, List.foldl_cons]
    exact ih (applyOp b op) (applyOp_wf b op hb)

theorem new_wf (n : Nat) (b : UbfBuf) (h : UbfBuffer.new n = .ok b) : b.wf := by
  unfold UbfBuffer.new at h
  cases hb : Binit n with
  | none => rw [hb] at h; cases h
  | some b2 =>
    rw [hb] at h
    cases h
    exact Binit_wf n _ hb

theorem length_encEntries_ge (es : List (Nat × UbfVal)) :
    es.length ≤ (encEntries es).length := by
  induction es with
  | nil => simp [encEntries]
  | cons e es ih =>
    have h1 := entryLen_pos e
    rw [entryLen] at h1
    have h2 : encEntries (e :: es) = encEntry e ++ encEntries es := by
      simp [encEntries]
    rw [h2]
    simp only [List.length_append, List.length_cons]
    omega

theorem from_bytes_as_bytes (b : UbfBuf) (hwf : b.wf) :
    UbfBuffer.from_bytes (UbfBuffer.as_bytes b) = .ok b := by
  obtain ⟨hsz, hused, hent⟩ := hwf
  have h1 : decBase 8 (UbfBuffer.as_bytes b)
      = some (b.size, encBase 8 b.usedBytes ++ encEntries b.entries) := by
    rw [UbfBuffer.as_bytes, List.append_assoc]
    exact decBase_encBase_of_lt 8 b.size _ (by rw [← word_eq]; exact hsz)
  have h2 : decBase 8 (encBase 8 b.usedBytes ++ encEntries b.entries)
      = some (b.usedBytes, encEntries b.entries) :=
    decBase_encBase_of_lt 8 b.usedBytes _ (by rw [← word_eq]; omega)
  have h3 : decEntries (encEntries b.entries).length (encEntries b.entries)
      = some b.entries :=
    decEntries_encEntries b.entries _ (length_encEntries_ge b.entries) hent
  rw [UbfBuffer.from_bytes, h1]
  dsimp only
  rw [h2]
  dsimp only
  rw [h3]

theorem used_unused_size (b : UbfBuf) (hwf : b.wf) :
    UbfBuffer.used b + UbfBuffer.unused b = UbfBuffer.size b := by
  obtain ⟨_, hused, _⟩ := hwf
  simp only [UbfBuffer.used, UbfBuffer.unused, UbfBuffer.size]
  omega

theorem applyOp_query_eq (b : UbfBuf) (op : Op) (h : op.isMutator = false) :
    applyOp b op = b := by
  cases op <;> simp [Op.isMutator] at h <;> rfl

theorem occVal_isSome_iff (b : UbfBuf) (fid occ : Nat) :
    (b.occVal fid occ).isSome = true ↔ occ < (b.occList fid).length := by
  rw [UbfBuf.occVal]
  constructor
  · intro h
    by_contra hc
    rw [List.getElem?_eq_none (by omega)] at h
    simp at h
  · intro h
    rw [List.getElem?_eq_getElem h]
    rfl

theorem occVal_eq_some_of_lt (b : UbfBuf) (fid occ : Nat)
    (h : occ < (b.occList fid).length) :
    b.occVal fid occ = some ((b.occList fid).get ⟨occ, h⟩) := by
  rw [UbfBuf.occVal]
  simp [List.getElem?_eq_getElem h]

theorem delAt_isSome_iff (l : List (Nat × UbfVal)) (fid occ : Nat) :
    (delAt l fid occ).isSome = true
      ↔ occ < (l.filter (fun e => e.1 = fid)).length := by
  induction l generalizing occ with
  | nil => simp [delAt]
  | cons x xs ih =>
    unfold delAt
    by_cases hx : x.1 = fid
    · rcases Nat.eq_zero_or_pos occ with rfl | hpos
      · simp [hx, List.filter_cons]
      · have hocc : ¬ occ = 0 := by omega
        cases hrec : delAt xs fid (occ - 1) with
        | none =>
          have hih := ih (occ - 1)
          rw [hrec] at hih
          simp only [Option.isSome_none, Bool.false_eq_true, false_iff] at hih
          simp [hx, hocc, hrec, List.filter_cons]
          omega
        | some l3 =>
          have hih := ih (occ - 1)
          rw [hrec] at hih
          simp only [Option.isSome_some, true_iff] at hih
          simp [hx, hocc, hrec, List.filter_cons]
          omega
    · cases hrec : delAt xs fid occ with
      | none =>
        have hih := ih occ
        rw [hrec] at hih
        simp only [Option.isSome_none, Bool.false_eq_true, false_iff] at hih
        simp [hx, hrec, List.filter_cons]
        omega
      | some l3 =>
        have hih := ih occ
        rw [hrec] at hih
        simp only [Option.isSome_some, true_iff] at hih
        simp [hx, hrec, List.filter_cons]
        omega

theorem delAt_filter_eq (l : List (Nat × UbfVal)) (fid occ : Nat)
    (l2 : List (Nat × UbfVal)) (h : delAt l fid occ = some l2) :
    l2.filter (fun e => e.1 = fid)
      = (l.filter (fun e => e.1 = fid)).eraseIdx occ := by
  induction l generalizing occ l2 with
  | nil => simp [delAt] at h
  | cons x xs ih =>
    unfold delAt at h
    by_cases hx : x.1 = fid
    · rw [if_pos hx] at h
      rcases Nat.eq_zero_or_pos occ with rfl | hpos
      · rw [if_pos rfl] at h
        cases h
        simp [List.filter_cons, hx]
      · obtain ⟨n, rfl⟩ := Nat.exists_eq_succ_of_ne_zero (by omega : occ ≠ 0)
        rw [if_neg (by omega)] at h
        cases hrec : delAt xs fid (n + 1 - 1) with
        | none => rw [hrec] at h; cases h
        | some l3 =>
          rw [hrec] at h
          cases h
          have hrec2 : delAt xs fid n = some l3 := by simpa using hrec
          have := ih n l3 hrec2
          simp [List.filter_cons, hx, List.eraseIdx_cons_succ, this]
    · rw [if_neg hx] at h
      cases hrec : delAt xs fid occ with
      | none => rw [hrec] at h; cases h
      | some l3 =>
        rw [hrec] at h
        cases h
        have := ih occ l3 hrec
        simp [List.filter_cons, hx, this]

theorem map_eraseIdx_comm {α β : Type} (f : α → β) (l : List α) (n : Nat) :
    (l.eraseIdx n).map f = (l.map f).eraseIdx n := by
  induction l generalizing n with
  | nil => simp
  | cons x xs ih => cases n <;> simp [List.eraseIdx_cons_succ, ih]

theorem Bdel_occList (b : UbfBuf) (fid occ : Nat) (b2 : UbfBuf)
    (h : Bdel b fid occ = some b2) :
    b2.occList fid = (b.occList fid).eraseIdx occ := by
  unfold Bdel at h
  cases hrec : delAt b.entries fid occ with
  | none => rw [hrec] at h; cases h
  | some l2 =>
    rw [hrec] at h
    cases h
    have := delAt_filter_eq b.entries fid occ l2 hrec
    simp only [UbfBuf.occList]
    rw [this, map_eraseIdx_comm]

theorem Bdel_isSome_iff (b : UbfBuf) (fid occ : Nat) :
    (Bdel b fid occ).isSome = true ↔ occ < (b.occList fid).length := by
  unfold Bdel
  cases hrec : delAt b.entries fid occ with
  | none =>
    have := delAt_isSome_iff b.entries fid occ
    rw [hrec] at this
    simp only [Option.isSome_none, Bool.false_eq_true, false_iff] at this
    simpa [UbfBuf.occList] using this
  | some l2 =>
    have := delAt_isSome_iff b.entries fid occ
    rw [hrec] at this
    simp only [Option.isSome_some, true_iff] at this
    simpa [UbfBuf.occList] using this

theorem isPresent_iff (b : UbfBuf) (fid occ : Nat) :
    UbfBuffer.is_present b fid occ = true ↔ occ < (b.occList fid).length := by
  simp [UbfBuffer.is_present, Bpres]

theorem occVal_none_of_absent (b : UbfBuf) (fid occ : Nat)
    (h : ¬ occ < (b.occList fid).length) : b.occVal fid occ = none := by
  rw [UbfBuf.occVal]
  exact List.getElem?_eq_none_iff.mpr (by omega)

theorem get_string_absent_err (b : UbfBuf) (fid occ : Nat)
    (h : ¬ occ < (b.occList fid).length) :
    UbfBuffer.get_string b fid occ
      = .error ("Failed to get string field " ++ toString fid
          ++ " at occ " ++ toString occ) := by
  simp [UbfBuffer.get_string, CBgetStr, occVal_none_of_absent b fid occ h]

theorem get_long_absent_err (b : UbfBuf) (fid occ : Nat)
    (h : ¬ occ < (b.occList fid).length) :
    UbfBuffer.get_long b fid occ
      = .error ("Failed to get long field " ++ toString fid
          ++ " at occ " ++ toString occ) := by
  simp [UbfBuffer.get_long, CBgetLong, occVal_none_of_absent b fid occ h]

theorem get_double_absent_err (b : UbfBuf) (fid occ : Nat)
    (h : ¬ occ < (b.occList fid).length) :
    UbfBuffer.get_double b fid occ
      = .error ("Failed to get double field " ++ toString fid
          ++ " at occ " ++ toString occ) := by
  simp [UbfBuffer.get_double, CBgetDbl, occVal_none_of_absent b fid occ h]

theorem get_string_ok_of_fit (b : UbfBuf) (fid occ : Nat) (s : String)
    (h : b.occVal fid occ = some (.vstr s)) (hlen : s.length + 1 ≤ 1024) :
    UbfBuffer.get_string b fid occ = .ok s := by
  simp [UbfBuffer.get_string, CBgetStr, h, strOfVal, hlen]

theorem get_string_overflow_err (b : UbfBuf) (fid occ : Nat) (s : String)
    (h : b.occVal fid occ = some (.vstr s)) (hlen : 1024 ≤ s.length) :
    UbfBuffer.get_string b fid occ
      = .error ("Failed to get string field " ++ toString fid
          ++ " at occ " ++ toString occ) := by
  have hc : ¬ (s.length + 1 ≤ 1024) := by omega
  simp [UbfBuffer.get_string, CBgetStr, h, strOfVal, hc]

theorem get_long_ok_bits (b : UbfBuf) (fid occ bits : Nat)
    (h : b.occVal fid occ = some (.vlong bits)) :
    UbfBuffer.get_long b fid occ = .ok (decodeI64 bits) := by
  simp [UbfBuffer.get_long, CBgetLong, h, longOfVal]

theorem get_double_ok_bits (b : UbfBuf) (fid occ bits : Nat)
    (h : b.occVal fid occ = some (.vdbl bits)) :
    UbfBuffer.get_double b fid occ = .ok bits := by
  simp [UbfBuffer.get_double, CBgetDbl, h, dblOfVal]

theorem Badd_none_of_mismatch (b : UbfBuf) (fid : Nat) (v : UbfVal)
    (h : fldType fid ≠ v.typeTag) : Badd b fid v = none := by
  unfold Badd
  rw [if_neg (by tauto)]

theorem Badd_none_of_nospace (b : UbfBuf) (fid : Nat) (v : UbfVal)
    (h : b.size < b.usedBytes + entryLen (fid, v)) : Badd b fid v = none := by
  unfold Badd
  split
  · rw [if_neg (by omega)]
  · rfl

theorem add_string_err_of_none (b : UbfBuf) (fid : Nat) (s : String)
    (h : Badd b fid (.vstr s) = none) :
    ∃ m, UbfBuffer.add_string b fid s = .error m := by
  by_cases hnul : hasNul s = true
  · refine ⟨"nul byte found in provided data", ?_⟩
    simp [UbfBuffer.add_string, hnul]
  · refine ⟨"Failed to add string field " ++ toString fid, ?_⟩
    simp [UbfBuffer.add_string, hnul, h]

theorem add_long_err_of_none (b : UbfBuf) (fid : Nat) (n : Int)
    (h : Badd b fid (.vlong (encodeI64 n)) = none) :
    UbfBuffer.add_long b fid n
      = .error ("Failed to add long field " ++ toString fid) := by
  simp [UbfBuffer.add_long, h]

theorem add_double_err_of_none (b : UbfBuf) (fid : Nat) (d : Nat)
    (h : Badd b fid (.vdbl (d % word)) = none) :
    UbfBuffer.add_double b fid d
      = .error ("Failed to add double field " ++ toString fid) := by
  simp [UbfBuffer.add_double, h]

/- ===== Claim theorems ===== -/

/-- C1 (wire round-trip): for every buffer built purely through
`add_*`/`change_*` calls on a freshly created buffer,
`from_bytes(as_bytes b)` succeeds and reproduces a buffer with identical
used count and identical occurrence contents for every field identifier. -/
theorem wire_round_trip (cap : Nat) (b0 : UbfBuf) (ops : List Op)
    (hc : UbfBuffer.new cap = .ok b0)
    (hbuild : ∀ op ∈ ops, op.isBuild = true) :
    ∃ b2, UbfBuffer.from_bytes (UbfBuffer.as_bytes (runOps b0 ops)) = .ok b2
      ∧ UbfBuffer.used b2 = UbfBuffer.used (runOps b0 ops)
      ∧ ∀ fid : Nat, b2.occList fid = (runOps b0 ops).occList fid := by
  have hwf := runOps_wf b0 ops (new_wf cap b0 hc)
  exact ⟨runOps b0 ops, from_bytes_as_bytes _ hwf, rfl, fun _ => rfl⟩

/-- C1 witness: a concrete build sequence round-trips through the wire. -/
theorem wire_round_trip_witness :
    ∃ b2, UbfBuffer.from_bytes
        (UbfBuffer.as_bytes (runOps ⟨1024, []⟩
          [Op.addStr T_NAME_FLD "hi", Op.addLong T_ID_FLD 7])) = .ok b2
      ∧ UbfBuffer.used b2
          = UbfBuffer.used (runOps ⟨1024, []⟩
              [Op.addStr T_NAME_FLD "hi", Op.addLong T_ID_FLD 7]) := by
  obtain ⟨b2, h1, h2, _⟩ := wire_round_trip 1024 ⟨1024, []⟩
    [Op.addStr T_NAME_FLD "hi", Op.addLong T_ID_FLD 7]
    (by decide) (by decide)
  exact ⟨b2, h1, h2⟩

/-- C4 (size invariant): on every buffer reachable from `create` by any
sequence of calls, `used() + unused() = size()`, and the buffer state is
unchanged by any call other than add/change/delete. -/
theorem size_invariant (cap : Nat) (b0 : UbfBuf) (ops : List Op)
    (hc : UbfBuffer.new cap = .ok b0) :
    UbfBuffer.used (runOps b0 ops) + UbfBuffer.unused (runOps b0 ops)
        = UbfBuffer.size (runOps b0 ops)
      ∧ ∀ op : Op, op.isMutator = false
          → applyOp (runOps b0 ops) op = runOps b0 ops := by
  have hwf := runOps_wf b0 ops (new_wf cap b0 hc)
  exact ⟨used_unused_size _ hwf, fun op h => applyOp_query_eq _ op h⟩

/-- C4 witness: the invariant on a concrete reachable buffer. -/
theorem size_invariant_witness :
    UbfBuffer.used (runOps ⟨1024, []⟩
        [Op.addStr T_NAME_FLD "hi", Op.del T_NAME_FLD 0])
      + UbfBuffer.unused (runOps ⟨1024, []⟩
          [Op.addStr T_NAME_FLD "hi", Op.del T_NAME_FLD 0])
      = UbfBuffer.size (runOps ⟨1024, []⟩
          [Op.addStr T_NAME_FLD "hi", Op.del T_NAME_FLD 0]) :=
  (size_invariant 1024 ⟨1024, []⟩
    [Op.addStr T_NAME_FLD "hi", Op.del T_NAME_FLD 0] (by decide)).1

/-- C8 (wire contract preserves size): for every well-formed buffer,
`from_bytes(as_bytes b)` reports the same total allocated size, the same
used count, and the exact entry sequence in storage order. -/
theorem wire_contract_preserves_size (b : UbfBuf) (hwf : b.wf) :
    ∃ b2, UbfBuffer.from_bytes (UbfBuffer.as_bytes b) = .ok b2
      ∧ UbfBuffer.size b2 = UbfBuffer.size b
      ∧ UbfBuffer.used b2 = UbfBuffer.used b
      ∧ b2.entries = b.entries :=
  ⟨b, from_bytes_as_bytes b hwf, rfl, rfl, rfl⟩

/-- A concrete three-occurrence buffer used by several witnesses. -/
def ubfThree : UbfBuf :=
  ⟨200, [(T_NAME_FLD, .vstr "a"), (T_NAME_FLD, .vstr "b"),
    (T_NAME_FLD, .vstr "c")]⟩

/-- C8 witness: the wire contract on a concrete buffer. -/
theorem wire_contract_preserves_size_witness :
    ∃ b2, UbfBuffer.from_bytes (UbfBuffer.as_bytes ubfThree) = .ok b2
      ∧ UbfBuffer.size b2 = UbfBuffer.size ubfThree
      ∧ UbfBuffer.used b2 = UbfBuffer.used ubfThree
      ∧ b2.entries = ubfThree.entries :=
  wire_contract_preserves_size ubfThree (by decide)

/-- C9 (deletion compaction): if one identifier holds occurrences
`[v0, v1, v2]`, `delete(id, 1)` succeeds and afterwards occurrence 0 is
`v0` and occurrence 1 is `v2`, observable through the matching typed
getter. -/
theorem deletion_compaction (b : UbfBuf) (fid : Nat) (v0 v1 v2 : UbfVal)
    (h : b.occList fid = [v0, v1, v2]) :
    ∃ b2, UbfBuffer.delete b fid 1 = .ok b2
      ∧ b2.occList fid = [v0, v2]
      ∧ (∀ s, v0 = .vstr s → s.length + 1 ≤ 1024
          → UbfBuffer.get_string b2 fid 0 = .ok s)
      ∧ (∀ s, v2 = .vstr s → s.length + 1 ≤ 1024
          → UbfBuffer.get_string b2 fid 1 = .ok s)
      ∧ (∀ bits, v0 = .vlong bits
          → UbfBuffer.get_long b2 fid 0 = .ok (decodeI64 bits))
      ∧ (∀ bits, v2 = .vlong bits
          → UbfBuffer.get_long b2 fid 1 = .ok (decodeI64 bits))
      ∧ (∀ bits, v0 = .vdbl bits → UbfBuffer.get_double b2 fid 0 = .ok bits)
      ∧ (∀ bits, v2 = .vdbl bits → UbfBuffer.get_double b2 fid 1 = .ok bits) := by
  have hlen : 1 < (b.occList fid).length := by rw [h]; simp
  have hsome := (Bdel_isSome_iff b fid 1).mpr hlen
  obtain ⟨b2, hb2⟩ := Option.isSome_iff_exists.mp hsome
  have hocc2 : b2.occList fid = [v0, v2] := by
    rw [Bdel_occList b fid 1 b2 hb2, h]
    rfl
  have hv0 : b2.occVal fid 0 = some v0 := by
    rw [UbfBuf.occVal, hocc2]
    rfl
  have hv2 : b2.occVal fid 1 = some v2 := by
    rw [UbfBuf.occVal, hocc2]
    rfl
  refine ⟨b2, by simp [UbfBuffer.delete, hb2], hocc2, ?_, ?_, ?_, ?_, ?_, ?_⟩
  · intro s hs hfit
    exact get_string_ok_of_fit b2 fid 0 s (hs ▸ hv0) hfit
  · intro s hs hfit
    exact get_string_ok_of_fit b2 fid 1 s (hs ▸ hv2) hfit
  · intro bits hs
    exact get_long_ok_bits b2 fid 0 bits (hs ▸ hv0)
  · intro bits hs
    exact get_long_ok_bits b2 fid 1 bits (hs ▸ hv2)
  · intro bits hs
    exact get_double_ok_bits b2 fid 0 bits (hs ▸ hv0)
  · intro bits hs
    exact get_double_ok_bits b2 fid 1 bits (hs ▸ hv2)

/-- C9 witness: deleting occurrence 1 of a concrete three-occurrence
buffer compacts to `[v0, v2]` and the getters see the shift. -/
theorem deletion_compaction_witness :
    ∃ b2, UbfBuffer.delete ubfThree T_NAME_FLD 1 = .ok b2
      ∧ b2.occList T_NAME_FLD = [.vstr "a", .vstr "c"] := by
  obtain ⟨b2, h1, h2, _⟩ := deletion_compaction ubfThree T_NAME_FLD
    (.vstr "a") (.vstr "b") (.vstr "c") (by decide)
  exact ⟨b2, h1, h2⟩

/-- The 1100-character string and single-entry buffer exhibiting the
1024-byte staging limit of `get_string`. -/
def longStr1100 : String := String.mk (List.replicate 1100 'a')

/-- A buffer in which `(T_NAME_FLD, 0)` is present but 1100 characters
long. -/
def overlongBuf : UbfBuf := ⟨2048, [(T_NAME_FLD, .vstr longStr1100)]⟩

/-- C10 (retrieval length limit): a stored string occurrence of 1024
bytes or more is present but `get_string` fails on it (the staging buffer
is 1024 bytes), and a generated string getter with a declared default
silently substitutes the default; values shorter than 1024 bytes are
retrieved intact. -/
theorem get_string_staging_limit (b : UbfBuf) (fid occ : Nat) (s : String)
    (hocc : b.occVal fid occ = some (.vstr s)) :
    (1024 ≤ s.length →
        UbfBuffer.is_present b fid occ = true
        ∧ UbfBuffer.get_string b fid occ
            = .error ("Failed to get string field " ++ toString fid
                ++ " at occ " ++ toString occ)
        ∧ ∀ fname d, occ = 0 → getStringField b fname fid (some d) = .ok d)
    ∧ (s.length < 1024 → UbfBuffer.get_string b fid occ = .ok s) := by
  have hpres : UbfBuffer.is_present b fid occ = true := by
    rw [isPresent_iff]
    have : (b.occVal fid occ).isSome = true := by rw [hocc]; rfl
    exact (occVal_isSome_iff b fid occ).mp this
  constructor
  · intro hlong
    refine ⟨hpres, get_string_overflow_err b fid occ s hocc hlong, ?_⟩
    intro fname d hocc0
    subst hocc0
    have herr := get_string_overflow_err b fid 0 s hocc hlong
    simp [getStringField, herr]
  · intro hshort
    exact get_string_ok_of_fit b fid occ s hocc (by omega)

/-- C10 witness: the concrete 1100-character occurrence is present, not
retrievable, and silently replaced by the declared default. -/
theorem get_string_staging_limit_witness :
    UbfBuffer.is_present overlongBuf T_NAME_FLD 0 = true
    ∧ UbfBuffer.get_string overlongBuf T_NAME_FLD 0
        = .error "Failed to get string field 167773162 at occ 0"
    ∧ getStringField overlongBuf "status" T_NAME_FLD (some "pending")
        = .ok "pending" := by
  obtain ⟨h1, _⟩ := get_string_staging_limit overlongBuf T_NAME_FLD 0
    longStr1100 (by decide)
  obtain ⟨hp, herr, hdef⟩ := h1 (by decide)
  refine ⟨hp, ?_, hdef "status" "pending" rfl⟩
  rw [herr]
  decide

/-- C5 (asymmetric default application): when `(fid, 0)` is absent, a
string getter with a declared default succeeds with the default, while a
string getter without one and the integer and float getters propagate
`FieldNotFound` naming both the native field and the buffer identifier;
in particular the `Transaction` mapping decodes a buffer with name, id
and amount but no status into `status = "pending"`. -/
theorem from_buffer_default_asymmetry (b : UbfBuf) (fname : String)
    (fid : Nat) (d : String)
    (habs : UbfBuffer.is_present b fid 0 = false) :
    getStringField b fname fid (some d) = .ok d
    ∧ getStringField b fname fid none
        = .error (.fieldNotFound (mkFieldErr fname fid
            ("Failed to get string field " ++ toString fid
              ++ " at occ " ++ toString (0 : Nat))))
    ∧ getLongField b fname fid
        = .error (.fieldNotFound (mkFieldErr fname fid
            ("Failed to get long field " ++ toString fid
              ++ " at occ " ++ toString (0 : Nat))))
    ∧ getDoubleField b fname fid
        = .error (.fieldNotFound (mkFieldErr fname fid
            ("Failed to get double field " ++ toString fid
              ++ " at occ " ++ toString (0 : Nat))))
    ∧ ∀ (b2 : UbfBuf) (nm : String) (i : Int) (am : Nat),
        UbfBuffer.get_string b2 T_NAME_FLD 0 = .ok nm →
        UbfBuffer.get_long b2 T_ID_FLD 0 = .ok i →
        UbfBuffer.get_double b2 T_PRICE_FLD 0 = .ok am →
        UbfBuffer.is_present b2 T_STATUS_FLD 0 = false →
        Transaction.from_ubf b2 = .ok ⟨nm, i, am, "pending"⟩ := by
  have habs2 : ¬ 0 < (b.occList fid).length := by
    intro hc
    rw [(isPresent_iff b fid 0).mpr hc] at habs
    cases habs
  have herr := get_string_absent_err b fid 0 habs2
  have herrL := get_long_absent_err b fid 0 habs2
  have herrD := get_double_absent_err b fid 0 habs2
  refine ⟨?_, ?_, ?_, ?_, ?_⟩
  · simp [getStringField, herr]
  · simp [getStringField, herr]
  · simp [getLongField, herrL]
  · simp [getDoubleField, herrD]
  · intro b2 nm i am hnm hid ham hst
    have hst2 : ¬ 0 < (b2.occList T_STATUS_FLD).length := by
      intro hc
      rw [(isPresent_iff b2 T_STATUS_FLD 0).mpr hc] at hst
      cases hst
    have herrS := get_string_absent_err b2 T_STATUS_FLD 0 hst2
    simp only [Transaction.from_ubf, getStringField, getLongField,
      getDoubleField, hnm, hid, ham, herrS]
    rfl

/-- A concrete buffer holding only name, id and amount (no status). -/
def txnNoStatus : UbfBuf :=
  ⟨2048, [(T_NAME_FLD, .vstr "Transfer"), (T_ID_FLD, .vlong 999),
    (T_PRICE_FLD, .vdbl 42)]⟩

/-- C5 witness: the concrete status-less buffer decodes with
`status = "pending"`. -/
theorem from_buffer_default_asymmetry_witness :
    Transaction.from_ubf txnNoStatus = .ok ⟨"Transfer", 999, 42, "pending"⟩ := by
  have h := (from_buffer_default_asymmetry txnNoStatus "status" T_STATUS_FLD
    "pending" (by decide)).2.2.2.2
  exact h txnNoStatus "Transfer" 999 42 (by decide) (by decide) (by decide)
    (by decide)

/-- C6 (amended): every Typed Buffer accessor is a total, fallible
function whose error channel carries a descriptive message string (the
typed `UbfError` taxonomy is applied at the struct-conversion layer),
and the failure conditions are exactly: creation fails when the capacity
cannot hold the header or overflows the address width; delete and the
numeric getters fail exactly on an absent occurrence; `get_string` fails
exactly when the occurrence is absent or the staged value does not fit
its fixed 1024-byte staging buffer. -/
theorem accessor_failure_modes (b : UbfBuf) (fid occ n : Nat) :
    ((UbfBuffer.new n).isOk = true ↔ (headerSize ≤ n ∧ n < word))
    ∧ ((UbfBuffer.delete b fid occ).isOk = true
        ↔ UbfBuffer.is_present b fid occ = true)
    ∧ ((UbfBuffer.get_long b fid occ).isOk = true
        ↔ UbfBuffer.is_present b fid occ = true)
    ∧ ((UbfBuffer.get_double b fid occ).isOk = true
        ↔ UbfBuffer.is_present b fid occ = true)
    ∧ ((UbfBuffer.get_string b fid occ).isOk = true
        ↔ ∃ v, b.occVal fid occ = some v
            ∧ (strOfVal v).length + 1 ≤ 1024) := by
  refine ⟨?_, ?_, ?_, ?_, ?_⟩
  · by_cases hc : headerSize ≤ n ∧ n < word <;>
      simp [UbfBuffer.new, Binit, hc, Except.isOk, Except.toBool]
  · rw [isPresent_iff, ← Bdel_isSome_iff]
    cases hd : Bdel b fid occ <;>
      simp [UbfBuffer.delete, hd, Except.isOk, Except.toBool]
  · rw [isPresent_iff, ← occVal_isSome_iff]
    cases hv : b.occVal fid occ <;>
      simp [UbfBuffer.get_long, CBgetLong, hv, Except.isOk, Except.toBool]
  · rw [isPresent_iff, ← occVal_isSome_iff]
    cases hv : b.occVal fid occ <;>
      simp [UbfBuffer.get_double, CBgetDbl, hv, Except.isOk, Except.toBool]
  · cases hv : b.occVal fid occ with
    | none => simp [UbfBuffer.get_string, CBgetStr, hv, Except.isOk, Except.toBool]
    | some v =>
      by_cases hfit : (strOfVal v).length + 1 ≤ 1024 <;>
        simp [UbfBuffer.get_string, CBgetStr, hv, Except.isOk, Except.toBool,
          hfit] <;> omega

/-- C6 counterexample: `get_string` fails on a PRESENT occurrence — the
claimed per-operation contract (`get_string -> Value | FieldNotFound`,
failure only on absence) does not hold — and the accessor's error value
is a bare message string, not a member of the typed
`{FieldNotFound, TypeError, AllocationError}` taxonomy. -/
theorem accessor_error_on_present_field :
    UbfBuffer.is_present overlongBuf T_NAME_FLD 0 = true
    ∧ UbfBuffer.get_string overlongBuf T_NAME_FLD 0
        = .error "Failed to get string field 167773162 at occ 0" := by
  exact ⟨by decide, by decide⟩

/-- C7 (add-side type checking): each typed add fails when the
identifier's embedded type tag mismatches the value's semantic type — the
conversion-layer setters surface this as a `TypeError` — and the adds
also fail when the encoded entry does not fit the backing memory. -/
theorem add_side_type_checking (b : UbfBuf) (fid : Nat) (fname s : String)
    (n : Int) (d : Nat) :
    (fldType fid ≠ BFLD_STRING →
        (∃ m, UbfBuffer.add_string b fid s = .error m)
        ∧ ∃ m, setStringField b fname fid s
            = .error (.typeError ("Field " ++ fname ++ ": " ++ m)))
    ∧ (fldType fid ≠ BFLD_LONG →
        UbfBuffer.add_long b fid n
          = .error ("Failed to add long field " ++ toString fid)
        ∧ setLongField b fname fid n
          = .error (.typeError ("Field " ++ fname ++ ": "
              ++ ("Failed to add long field " ++ toString fid))))
    ∧ (fldType fid ≠ BFLD_DOUBLE →
        UbfBuffer.add_double b fid d
          = .error ("Failed to add double field " ++ toString fid)
        ∧ setDoubleField b fname fid d
          = .error (.typeError ("Field " ++ fname ++ ": "
              ++ ("Failed to add double field " ++ toString fid))))
    ∧ (b.size < b.usedBytes + entryLen (fid, .vstr s) →
        ∃ m, UbfBuffer.add_string b fid s = .error m)
    ∧ (b.size < b.usedBytes + 17 →
        UbfBuffer.add_long b fid n
          = .error ("Failed to add long field " ++ toString fid)
        ∧ UbfBuffer.add_double b fid d
          = .error ("Failed to add double field " ++ toString fid)) := by
  refine ⟨?_, ?_, ?_, ?_, ?_⟩
  · intro hty
    have hb := Badd_none_of_mismatch b fid (.vstr s)
      (by simpa [UbfVal.typeTag] using hty)
    obtain ⟨m, hm⟩ := add_string_err_of_none b fid s hb
    exact ⟨⟨m, hm⟩, m, by simp [setStringField, hm]⟩
  · intro hty
    have hb := Badd_none_of_mismatch b fid (.vlong (encodeI64 n))
      (by simpa [UbfVal.typeTag] using hty)
    have hm := add_long_err_of_none b fid n hb
    exact ⟨hm, by simp [setLongField, hm]⟩
  · intro hty
    have hb := Badd_none_of_mismatch b fid (.vdbl (d % word))
      (by simpa [UbfVal.typeTag] using hty)
    have hm := add_double_err_of_none b fid d hb
    exact ⟨hm, by simp [setDoubleField, hm]⟩
  · intro hfit
    exact add_string_err_of_none b fid s (Badd_none_of_nospace b fid _ hfit)
  · intro hfit
    constructor
    · exact add_long_err_of_none b fid n
        (Badd_none_of_nospace b fid _ (by rw [entryLen_vlong]; omega))
    · exact add_double_err_of_none b fid d
        (Badd_none_of_nospace b fid _ (by rw [entryLen_vdbl]; omega))

/-- C7 witness: a numeric-typed identifier rejects `add_string`, a
string-typed identifier rejects `add_long`, and a full buffer rejects a
fitting add. -/
theorem add_side_type_checking_witness :
    (∃ m, UbfBuffer.add_string ⟨100, []⟩ T_ID_FLD "x" = .error m)
    ∧ UbfBuffer.add_long ⟨100, []⟩ T_NAME_FLD 1
        = .error ("Failed to add long field " ++ toString T_NAME_FLD)
    ∧ ∃ m, UbfBuffer.add_string ⟨16, []⟩ T_NAME_FLD "x" = .error m := by
  refine ⟨?_, ?_, ?_⟩
  · exact ((add_side_type_checking ⟨100, []⟩ T_ID_FLD "f" "x" 0 0).1
      (by decide)).1
  · exact ((add_side_type_checking ⟨100, []⟩ T_NAME_FLD "f" "x" 1 0).2.1
      (by decide)).1
  · exact (add_side_type_checking ⟨16, []⟩ T_NAME_FLD "f" "x" 0 0).2.2.2.1
      (by decide)

/- ===== Generic-codec round-trip lemmas ===== -/

theorem charDigit_digitChar (d : Nat) (h : d < 10) :
    charDigit (digitChar d) = some d := by
  interval_cases d <;> decide

theorem digitChar_ne_minus (d : Nat) : digitChar d ≠ '-' := by
  unfold digitChar
  split <;> decide

theorem digitChar_ne_nul (d : Nat) : digitChar d ≠ nulChar := by
  unfold digitChar
  split <;> decide

theorem digitChar_isSome (d : Nat) : (charDigit (digitChar d)).isSome = true := by
  unfold digitChar
  split <;> decide

/-- What it means for a character list not to begin with a digit. -/
def headNotDigit : List Char → Prop
  | [] => True
  | c :: _ => charDigit c = none

theorem takeDigits_append (ds : List Nat) (rest : List Char)
    (hds : ∀ d ∈ ds, d < 10) (hrest : headNotDigit rest) :
    takeDigits (ds.map digitChar ++ rest) = (ds, rest) := by
  induction ds with
  | nil =>
    cases rest with
    | nil => rfl
    | cons c cs =>
      have hc : charDigit c = none := hrest
      simp [takeDigits, hc]
  | cons d ds ih =>
    have hd : charDigit (digitChar d) = some d :=
      charDigit_digitChar d (hds d (by simp))
    have hih := ih (fun x hx => hds x (by simp [hx]))
    simp [takeDigits, hd, hih]

theorem natDigitsRev_eq_digits (fuel n : Nat) (h : n ≤ fuel) :
    natDigitsRev fuel n = Nat.digits 10 n := by
  induction fuel generalizing n with
  | zero =>
    have h0 : n = 0 := by omega
    subst h0
    simp [natDigitsRev]
  | succ fuel ih =>
    by_cases h0 : n = 0
    · subst h0
      simp [natDigitsRev]
    · rw [natDigitsRev, if_neg h0]
      have hlt : n / 10 ≤ fuel := by
        have := Nat.div_lt_self (by omega : 0 < n) (by norm_num : 1 < 10)
        omega
      rw [ih (n / 10) hlt]
      exact (Nat.digits_def' (by norm_num : 1 < 10) (by omega : 0 < n)).symm

theorem natToChars_all_digits (n : Nat) :
    ∃ ds, natToChars n = ds.map digitChar ∧ (∀ d ∈ ds, d < 10) ∧ ds ≠ []
      ∧ Nat.ofDigits 10 ds.reverse = n := by
  by_cases h0 : n = 0
  · subst h0
    exact ⟨[0], rfl, by simp, by simp, by simp⟩
  · refine ⟨(Nat.digits 10 n).reverse, ?_, ?_, ?_, ?_⟩
    · simp [natToChars, h0, natDigitsRev_eq_digits n n (le_refl n)]
    · intro d hd
      exact Nat.digits_lt_base (by norm_num) (List.mem_reverse.mp hd)
    · simp [Nat.digits_ne_nil_iff_ne_zero, h0]
    · rw [List.reverse_reverse, Nat.ofDigits_digits]

theorem parseNatL_natToChars (n : Nat) (rest : List Char)
    (hrest : headNotDigit rest) :
    parseNatL (natToChars n ++ rest) = some (n, rest) := by
  obtain ⟨ds, hmap, hlt, hne, hval⟩ := natToChars_all_digits n
  rw [hmap]
  have htake := takeDigits_append ds rest hlt hrest
  obtain ⟨d, ds2, rfl⟩ := List.exists_cons_of_ne_nil hne
  simp only [List.map_cons, List.cons_append] at htake
  simp [parseNatL, htake]
  simpa using hval

theorem natToChars_head (n : Nat) :
    ∃ d cs, natToChars n = digitChar d :: cs := by
  obtain ⟨ds, hmap, _, hne, _⟩ := natToChars_all_digits n
  obtain ⟨d, ds2, rfl⟩ := List.exists_cons_of_ne_nil hne
  exact ⟨d, ds2.map digitChar, by simp [hmap]⟩

theorem parseQuoted_esc (c : Char) (l : List Char) :
    parseQuoted ('\\' :: c :: l)
      = (parseQuoted l).map (fun p => (unescChar c :: p.1, p.2)) := rfl

theorem parseQuoted_cons_other (c : Char) (l : List Char)
    (h1 : c ≠ '"') (h2 : c ≠ '\\') :
    parseQuoted (c :: l)
      = (parseQuoted l).map (fun p => (c :: p.1, p.2)) := by
  rw [parseQuoted.eq_def]
  split
  · rename_i heq
    cases heq
  · rename_i heq
    rw [List.cons.injEq] at heq
    exact absurd heq.1 h1
  · rename_i heq
    rw [List.cons.injEq] at heq
    exact absurd heq.1 h2
  · rename_i heq
    rw [List.cons.injEq] at heq
    exact absurd heq.1 h2
  · rename_i hne1 hne2 hne3 heq
    rw [List.cons.injEq] at heq
    rw [heq.1, heq.2]

theorem parseQuoted_escStr (l rest : List Char) :
    parseQuoted (escStr l ++ '"' :: rest) = some (l, rest) := by
  induction l with
  | nil => rfl
  | cons c cs ih =>
    have hstep : escStr (c :: cs) = escChar c ++ escStr cs := by
      simp [escStr]
    rw [hstep, List.append_assoc]
    by_cases h1 : c = '"'
    · subst h1
      rw [show escChar '"' = ['\\', '"'] from rfl]
      simp only [List.cons_append, List.nil_append]
      rw [parseQuoted_esc, ih]
      rfl
    · by_cases h2 : c = '\\'
      · subst h2
        rw [show escChar '\\' = ['\\', '\\'] from rfl]
        simp only [List.cons_append, List.nil_append]
        rw [parseQuoted_esc, ih]
        rfl
      · by_cases h3 : c = nulChar
        · subst h3
          rw [show escChar nulChar = ['\\', '0'] from rfl]
          simp only [List.cons_append, List.nil_append]
          rw [parseQuoted_esc, ih]
          rfl
        · have hesc : escChar c = [c] := by
            unfold escChar
            rw [if_neg h1, if_neg h2, if_neg h3]
          rw [hesc]
          simp only [List.cons_append, List.nil_append]
          rw [parseQuoted_cons_other c _ h1 h2, ih]
          rfl

theorem parseIntL_intToChars (i : Int) (rest : List Char)
    (hrest : headNotDigit rest) :
    parseIntL (intToChars i ++ rest) = some (i, rest) := by
  by_cases hneg : i < 0
  · have hchars : intToChars i = '-' :: natToChars (-i).toNat := by
      simp [intToChars, hneg]
    rw [hchars]
    have hp := parseNatL_natToChars (-i).toNat rest hrest
    simp only [List.cons_append, parseIntL, hp]
    have : ((-i).toNat : Int) = -i := Int.toNat_of_nonneg (by omega)
    rw [this]
    simp
  · have hchars : intToChars i = natToChars i.toNat := by
      simp [intToChars, hneg]
    obtain ⟨d, cs, hh⟩ := natToChars_head i.toNat
    have hp := parseNatL_natToChars i.toNat rest hrest
    rw [hchars, hh]
    rw [hh] at hp
    rw [parseIntL.eq_def]
    split
    · rename_i heq
      rw [List.cons_append, List.cons.injEq] at heq
      exact absurd heq.1 (digitChar_ne_minus d)
    · rename_i hne
      rw [List.cons_append] at hp ⊢
      rw [hp]
      dsimp only
      have hti : (i.toNat : Int) = i := Int.toNat_of_nonneg (by omega)
      rw [hti]

theorem parseMeta_metaChars (m : Option String) (rest : List Char) :
    parseMeta (metaChars m ++ rest) = some (m, rest) := by
  cases m with
  | none => rfl
  | some s =>
    simp only [metaChars, List.cons_append, List.append_assoc,
      List.cons_append, List.nil_append]
    have := parseQuoted_escStr s.data rest
    simp [parseMeta, this]

theorem data_encodeReq (v : RequestData) :
    (encodeReq v).data
      = '{' :: '"' :: (escStr v.operation.data ++ '"' :: ',' ::
          (intToChars v.user_id ++ ',' :: (natToChars v.amount ++ ',' ::
            (metaChars v.metadata ++ ['}'])))) := rfl

theorem decodeReq_encodeReq (v : RequestData) :
    decodeReq (encodeReq v) = some v := by
  obtain ⟨op, uid, am, meta⟩ := v
  have h1 := parseQuoted_escStr op.data
    (',' :: (intToChars uid ++ ',' :: (natToChars am ++ ',' ::
      (metaChars meta ++ ['}']))))
  have h2 := parseIntL_intToChars uid
    (',' :: (natToChars am ++ ',' :: (metaChars meta ++ ['}'])))
    (by simp [headNotDigit]; decide)
  have h3 := parseNatL_natToChars am (',' :: (metaChars meta ++ ['}']))
    (by simp [headNotDigit]; decide)
  have h4 := parseMeta_metaChars meta ['}']
  simp [decodeReq, data_encodeReq, expectChar, h1, h2, h3, h4]

theorem escChar_no_nul (c x : Char) (hx : x ∈ escChar c) : x ≠ nulChar := by
  unfold escChar at hx
  by_cases h1 : c = '"'
  · rw [if_pos h1] at hx
    rcases List.mem_cons.mp hx with rfl | hx2
    · decide
    · simp at hx2
      subst hx2
      decide
  · rw [if_neg h1] at hx
    by_cases h2 : c = '\\'
    · rw [if_pos h2] at hx
      rcases List.mem_cons.mp hx with rfl | hx2
      · decide
      · simp at hx2
        subst hx2
        decide
    · rw [if_neg h2] at hx
      by_cases h3 : c = nulChar
      · rw [if_pos h3] at hx
        rcases List.mem_cons.mp hx with rfl | hx2
        · decide
        · simp at hx2
          subst hx2
          decide
      · rw [if_neg h3] at hx
        simp at hx
        subst hx
        exact h3

theorem escStr_no_nul (l : List Char) (x : Char) (hx : x ∈ escStr l) :
    x ≠ nulChar := by
  rw [escStr, List.mem_flatMap] at hx
  obtain ⟨c, _, hc⟩ := hx
  exact escChar_no_nul c x hc

theorem natToChars_no_nul (n : Nat) (x : Char) (hx : x ∈ natToChars n) :
    x ≠ nulChar := by
  obtain ⟨ds, hmap, _, _, _⟩ := natToChars_all_digits n
  rw [hmap, List.mem_map] at hx
  obtain ⟨d, _, rfl⟩ := hx
  exact digitChar_ne_nul d

theorem intToChars_no_nul (i : Int) (x : Char) (hx : x ∈ intToChars i) :
    x ≠ nulChar := by
  unfold intToChars at hx
  by_cases hneg : i < 0
  · rw [if_pos hneg] at hx
    rcases List.mem_cons.mp hx with rfl | hx2
    · decide
    · exact natToChars_no_nul _ x hx2
  · rw [if_neg hneg] at hx
    exact natToChars_no_nul _ x hx

theorem metaChars_no_nul (m : Option String) (x : Char)
    (hx : x ∈ metaChars m) : x ≠ nulChar := by
  cases m with
  | none =>
    simp [metaChars] at hx
    subst hx
    decide
  | some s =>
    simp only [metaChars] at hx
    rcases List.mem_cons.mp hx with rfl | hx2
    · decide
    · rcases List.mem_append.mp hx2 with hx3 | hx3
      · exact escStr_no_nul s.data x hx3
      · simp at hx3
        subst hx3
        decide

theorem encodeReq_no_nul (v : RequestData) : hasNul (encodeReq v) = false := by
  rw [hasNul, decide_eq_false_iff_not]
  intro hmem
  rw [data_encodeReq] at hmem
  rcases List.mem_cons.mp hmem with h | hmem
  · exact absurd h.symm (by decide)
  rcases List.mem_cons.mp hmem with h | hmem
  · exact absurd h.symm (by decide)
  rcases List.mem_append.mp hmem with h | hmem
  · exact escStr_no_nul _ _ h rfl
  rcases List.mem_cons.mp hmem with h | hmem
  · exact absurd h.symm (by decide)
  rcases List.mem_cons.mp hmem with h | hmem
  · exact absurd h.symm (by decide)
  rcases List.mem_append.mp hmem with h | hmem
  · exact intToChars_no_nul _ _ h rfl
  rcases List.mem_cons.mp hmem with h | hmem
  · exact absurd h.symm (by decide)
  rcases List.mem_append.mp hmem with h | hmem
  · exact natToChars_no_nul _ _ h rfl
  rcases List.mem_cons.mp hmem with h | hmem
  · exact absurd h.symm (by decide)
  rcases List.mem_append.mp hmem with h | hmem
  · exact metaChars_no_nul _ _ h rfl
  · simp at hmem
    exact absurd hmem.symm (by decide)

/- ===== Successful-add helper lemmas ===== -/

theorem Badd_ok_of (b : UbfBuf) (fid : Nat) (v : UbfVal)
    (h1 : fid < 2 ^ 32) (h2 : fldType fid = v.typeTag)
    (h3 : b.usedBytes + entryLen (fid, v) ≤ b.size) :
    Badd b fid v = some ⟨b.size, b.entries ++ [(fid, v)]⟩ := by
  unfold Badd
  rw [if_pos ⟨h1, h2⟩, if_pos h3]

theorem add_string_ok (b : UbfBuf) (fid : Nat) (s : String)
    (hnul : hasNul s = false) (h1 : fid < 2 ^ 32)
    (h2 : fldType fid = BFLD_STRING)
    (h3 : b.usedBytes + 17 + s.length ≤ b.size) :
    UbfBuffer.add_string b fid s
      = .ok ⟨b.size, b.entries ++ [(fid, .vstr s)]⟩ := by
  have hb := Badd_ok_of b fid (.vstr s) h1 h2 (by rw [entryLen_vstr]; omega)
  simp [UbfBuffer.add_string, hnul, hb]

theorem add_long_ok (b : UbfBuf) (fid : Nat) (n : Int)
    (h1 : fid < 2 ^ 32) (h2 : fldType fid = BFLD_LONG)
    (h3 : b.usedBytes + 17 ≤ b.size) :
    UbfBuffer.add_long b fid n
      = .ok ⟨b.size, b.entries ++ [(fid, .vlong (encodeI64 n))]⟩ := by
  have hb := Badd_ok_of b fid (.vlong (encodeI64 n)) h1 h2
    (by rw [entryLen_vlong]; omega)
  simp [UbfBuffer.add_long, hb]

theorem add_double_ok (b : UbfBuf) (fid : Nat) (d : Nat)
    (h1 : fid < 2 ^ 32) (h2 : fldType fid = BFLD_DOUBLE)
    (h3 : b.usedBytes + 17 ≤ b.size) :
    UbfBuffer.add_double b fid d
      = .ok ⟨b.size, b.entries ++ [(fid, .vdbl (d % word))]⟩ := by
  have hb := Badd_ok_of b fid (.vdbl (d % word)) h1 h2
    (by rw [entryLen_vdbl]; omega)
  simp [UbfBuffer.add_double, hb]

/-- A successful raw `get_string` propagates through the generated
string-field getter regardless of the declared default. -/
theorem getStringField_ok (b : UbfBuf) (fname : String) (fid : Nat)
    (dflt : Option String) (s : String)
    (h : UbfBuffer.get_string b fid 0 = .ok s) :
    getStringField b fname fid dflt = .ok s := by
  unfold getStringField
  rw [h]

/-- A successful raw `get_long` propagates through the generated
integer-field getter. -/
theorem getLongField_ok (b : UbfBuf) (fname : String) (fid : Nat) (v : Int)
    (h : UbfBuffer.get_long b fid 0 = .ok v) :
    getLongField b fname fid = .ok v := by
  unfold getLongField
  rw [h]

/-- A successful raw `get_double` propagates through the generated
float-field getter. -/
theorem getDoubleField_ok (b : UbfBuf) (fname : String) (fid : Nat) (v : Nat)
    (h : UbfBuffer.get_double b fid 0 = .ok v) :
    getDoubleField b fname fid = .ok v := by
  unfold getDoubleField
  rw [h]

/-- A successful `add_string` propagates through the generated
string-field setter. -/
theorem setStringField_ok (b b2 : UbfBuf) (fname : String) (fid : Nat)
    (v : String) (h : UbfBuffer.add_string b fid v = .ok b2) :
    setStringField b fname fid v = .ok b2 := by
  unfold setStringField
  rw [h]

/-- A successful `add_long` propagates through the generated
integer-field setter. -/
theorem setLongField_ok (b b2 : UbfBuf) (fname : String) (fid : Nat)
    (v : Int) (h : UbfBuffer.add_long b fid v = .ok b2) :
    setLongField b fname fid v = .ok b2 := by
  unfold setLongField
  rw [h]

/-- A successful `add_double` propagates through the generated
float-field setter. -/
theorem setDoubleField_ok (b b2 : UbfBuf) (fname : String) (fid : Nat)
    (v : Nat) (h : UbfBuffer.add_double b fid v = .ok b2) :
    setDoubleField b fname fid v = .ok b2 := by
  unfold setDoubleField
  rw [h]

/-- When all four typed adds succeed, `update_ubf` returns the final
buffer. -/
theorem update_ubf_ok (t : Transaction) (b b1 b2 b3 b4 : UbfBuf)
    (e1 : setStringField b "name" T_NAME_FLD t.name = .ok b1)
    (e2 : setLongField b1 "id" T_ID_FLD t.id = .ok b2)
    (e3 : setDoubleField b2 "amount" T_PRICE_FLD t.amount = .ok b3)
    (e4 : setStringField b3 "status" T_STATUS_FLD t.status = .ok b4) :
    Transaction.update_ubf t b = .ok b4 := by
  simp only [Transaction.update_ubf, e1, e2, e3, e4, Bind.bind, Except.bind]

/-- `to_ubf` succeeds exactly as `update_ubf` does on the fresh
2048-byte buffer. -/
theorem to_ubf_ok (t : Transaction) (bf : UbfBuf)
    (h : Transaction.update_ubf t ⟨2048, []⟩ = .ok bf) :
    Transaction.to_ubf t = .ok bf := by
  unfold Transaction.to_ubf
  rw [show UbfBuffer.new 2048 = .ok ⟨2048, []⟩ from rfl]
  exact h

/-- When all four generated getters succeed, `from_ubf` assembles the
struct from their results. -/
theorem from_ubf_fields (b : UbfBuf) (nm st : String) (idv : Int) (am : Nat)
    (e1 : getStringField b "name" T_NAME_FLD none = .ok nm)
    (e2 : getLongField b "id" T_ID_FLD = .ok idv)
    (e3 : getDoubleField b "amount" T_PRICE_FLD = .ok am)
    (e4 : getStringField b "status" T_STATUS_FLD (some "pending") = .ok st) :
    Transaction.from_ubf b = .ok ⟨nm, idv, am, st⟩ := by
  simp only [Transaction.from_ubf, e1, e2, e3, e4, Bind.bind, Except.bind,
    pure, Except.pure]

/-- C2 (amended): the `Transaction` mapping round-trips —
`from_ubf (to_ubf s) = ok s` — for every value whose string fields are
free of interior NUL bytes and shorter than the 1024-byte retrieval
limit, whose encoded fields fit the fixed 2048-byte buffer `to_ubf`
allocates, whose `id` lies in the `i64` range the mapping stores, and
whose `amount` is a 64-bit pattern. -/
theorem transaction_round_trip (t : Transaction)
    (hn1 : hasNul t.name = false) (hs1 : hasNul t.status = false)
    (hn2 : t.name.length < 1024) (hs2 : t.status.length < 1024)
    (hfit : t.name.length + t.status.length ≤ 1964)
    (hid1 : -(2 ^ 63) ≤ t.id) (hid2 : t.id < 2 ^ 63)
    (ham : t.amount < word) :
    ∃ b, Transaction.to_ubf t = .ok b ∧ Transaction.from_ubf b = .ok t := by
  obtain ⟨nm, idv, am, st⟩ := t
  simp only at hn1 hs1 hn2 hs2 hfit hid1 hid2 ham
  refine ⟨⟨2048, [(T_NAME_FLD, .vstr nm), (T_ID_FLD, .vlong (encodeI64 idv)),
    (T_PRICE_FLD, .vdbl (am % word)), (T_STATUS_FLD, .vstr st)]⟩, ?_, ?_⟩
  · have h1 : setStringField ⟨2048, []⟩ "name" T_NAME_FLD nm
        = .ok ⟨2048, [(T_NAME_FLD, .vstr nm)]⟩ :=
      setStringField_ok _ _ _ _ _ (add_string_ok ⟨2048, []⟩ T_NAME_FLD nm hn1
        (by decide) (by decide)
        (by simp [UbfBuf.usedBytes, headerSize]; omega))
    have h2 : setLongField ⟨2048, [(T_NAME_FLD, .vstr nm)]⟩ "id" T_ID_FLD idv
        = .ok ⟨2048, [(T_NAME_FLD, .vstr nm),
            (T_ID_FLD, .vlong (encodeI64 idv))]⟩ :=
      setLongField_ok _ _ _ _ _ (add_long_ok ⟨2048, [(T_NAME_FLD, .vstr nm)]⟩
        T_ID_FLD idv (by decide) (by decide)
        (by simp [UbfBuf.usedBytes, headerSize, entryLen_vstr]; omega))
    have h3 : setDoubleField ⟨2048, [(T_NAME_FLD, .vstr nm),
          (T_ID_FLD, .vlong (encodeI64 idv))]⟩ "amount" T_PRICE_FLD am
        = .ok ⟨2048, [(T_NAME_FLD, .vstr nm),
            (T_ID_FLD, .vlong (encodeI64 idv)),
            (T_PRICE_FLD, .vdbl (am % word))]⟩ :=
      setDoubleField_ok _ _ _ _ _ (add_double_ok ⟨2048,
        [(T_NAME_FLD, .vstr nm), (T_ID_FLD, .vlong (encodeI64 idv))]⟩
        T_PRICE_FLD am (by decide) (by decide)
        (by simp [UbfBuf.usedBytes, headerSize, entryLen_vstr,
          entryLen_vlong]; omega))
    have h4 : setStringField ⟨2048, [(T_NAME_FLD, .vstr nm),
          (T_ID_FLD, .vlong (encodeI64 idv)),
          (T_PRICE_FLD, .vdbl (am % word))]⟩ "status" T_STATUS_FLD st
        = .ok ⟨2048, [(T_NAME_FLD, .vstr nm),
            (T_ID_FLD, .vlong (encodeI64 idv)),
            (T_PRICE_FLD, .vdbl (am % word)),
            (T_STATUS_FLD, .vstr st)]⟩ :=
      setStringField_ok _ _ _ _ _ (add_string_ok ⟨2048,
        [(T_NAME_FLD, .vstr nm), (T_ID_FLD, .vlong (encodeI64 idv)),
          (T_PRICE_FLD, .vdbl (am % word))]⟩ T_STATUS_FLD st hs1
        (by decide) (by decide)
        (by simp [UbfBuf.usedBytes, headerSize, entryLen_vstr,
          entryLen_vlong, entryLen_vdbl]; omega))
    exact to_ubf_ok _ _ (update_ubf_ok _ _ _ _ _ _ h1 h2 h3 h4)
  · have hv0 : UbfBuf.occVal ⟨2048, [(T_NAME_FLD, .vstr nm),
        (T_ID_FLD, .vlong (encodeI64 idv)), (T_PRICE_FLD, .vdbl (am % word)),
        (T_STATUS_FLD, .vstr st)]⟩ T_NAME_FLD 0 = some (.vstr nm) := by
      simp [UbfBuf.occVal, UbfBuf.occList, T_NAME_FLD, T_ID_FLD, T_PRICE_FLD,
        T_STATUS_FLD, mkFldId, BFLD_STRING, BFLD_LONG, BFLD_DOUBLE]
    have hv1 : UbfBuf.occVal ⟨2048, [(T_NAME_FLD, .vstr nm),
        (T_ID_FLD, .vlong (encodeI64 idv)), (T_PRICE_FLD, .vdbl (am % word)),
        (T_STATUS_FLD, .vstr st)]⟩ T_ID_FLD 0
          = some (.vlong (encodeI64 idv)) := by
      simp [UbfBuf.occVal, UbfBuf.occList, T_NAME_FLD, T_ID_FLD, T_PRICE_FLD,
        T_STATUS_FLD, mkFldId, BFLD_STRING, BFLD_LONG, BFLD_DOUBLE]
    have hv2 : UbfBuf.occVal ⟨2048, [(T_NAME_FLD, .vstr nm),
        (T_ID_FLD, .vlong (encodeI64 idv)), (T_PRICE_FLD, .vdbl (am % word)),
        (T_STATUS_FLD, .vstr st)]⟩ T_PRICE_FLD 0
          = some (.vdbl (am % word)) := by
      simp [UbfBuf.occVal, UbfBuf.occList, T_NAME_FLD, T_ID_FLD, T_PRICE_FLD,
        T_STATUS_FLD, mkFldId, BFLD_STRING, BFLD_LONG, BFLD_DOUBLE]
    have hv3 : UbfBuf.occVal ⟨2048, [(T_NAME_FLD, .vstr nm),
        (T_ID_FLD, .vlong (encodeI64 idv)), (T_PRICE_FLD, .vdbl (am % word)),
        (T_STATUS_FLD, .vstr st)]⟩ T_STATUS_FLD 0 = some (.vstr st) := by
      simp [UbfBuf.occVal, UbfBuf.occList, T_NAME_FLD, T_ID_FLD, T_PRICE_FLD,
        T_STATUS_FLD, mkFldId, BFLD_STRING, BFLD_LONG, BFLD_DOUBLE]
    have hgs := get_string_ok_of_fit _ T_NAME_FLD 0 nm hv0 (by omega)
    have hgl := get_long_ok_bits _ T_ID_FLD 0 _ hv1
    rw [decodeI64_encodeI64 idv hid1 hid2] at hgl
    have hgd := get_double_ok_bits _ T_PRICE_FLD 0 _ hv2
    have hgst := get_string_ok_of_fit _ T_STATUS_FLD 0 st hv3 (by omega)
    exact from_ubf_fields _ nm st idv am
      (getStringField_ok _ _ _ _ _ hgs)
      (getLongField_ok _ _ _ _ hgl)
      ((getDoubleField_ok _ _ _ _ hgd).trans
        (congrArg Except.ok (Nat.mod_eq_of_lt ham)))
      (getStringField_ok _ _ _ _ _ hgst)

/-- The concrete `Transaction` of the mapping round-trip property
(`amount` is the bit pattern of the double `999.99`). -/
def txnPayment : Transaction :=
  ⟨"Payment", 12345, 4652007220880259154, "completed"⟩

/-- C2 witness: the concrete `{Payment, 12345, 999.99, completed}` value
round-trips. -/
theorem transaction_round_trip_witness :
    ∃ b, Transaction.to_ubf txnPayment = .ok b
      ∧ Transaction.from_ubf b = .ok txnPayment :=
  transaction_round_trip txnPayment (by decide) (by decide) (by decide)
    (by decide) (by decide) (by decide) (by decide) (by decide)

/-- A `Transaction` whose status is 1100 characters long. -/
def txnLongStatus : Transaction :=
  ⟨"Payment", 12345, 4652007220880259154, String.mk (List.replicate 1100 'x')⟩

/-- The buffer `to_ubf` builds for `txnLongStatus`. -/
def txnLongBuf : UbfBuf :=
  ⟨2048, [(T_NAME_FLD, .vstr "Payment"), (T_ID_FLD, .vlong 12345),
    (T_PRICE_FLD, .vdbl 4652007220880259154),
    (T_STATUS_FLD, .vstr (String.mk (List.replicate 1100 'x')))]⟩

/-- C2 counterexample: for the concrete value with a 1100-character
status, `to_ubf` succeeds but `from_ubf` silently replaces the status by
the declared default `"pending"`, so `from_ubf (to_ubf s) ≠ ok s`. -/
theorem transaction_round_trip_counterexample :
    Transaction.to_ubf txnLongStatus = .ok txnLongBuf
    ∧ Transaction.from_ubf txnLongBuf
        = .ok ⟨"Payment", 12345, 4652007220880259154, "pending"⟩
    ∧ (⟨"Payment", 12345, 4652007220880259154, "pending"⟩ : Transaction)
        ≠ txnLongStatus :=
  ⟨rfl, rfl, by decide⟩

theorem unmarshal_ok_of_stored (b : UbfBuf) (s : String) (v : RequestData)
    (hget : UbfBuffer.get_string b T_DATA_FLD 0 = .ok s)
    (hdec : decodeReq s = some v) :
    unmarshal b = .ok v := by
  unfold unmarshal
  rw [hget]
  dsimp only
  rw [hdec]

/-- C3 (amended): the generic codec round-trips —
`unmarshal (marshal v) = ok v` — for every value whose encoded string is
shorter than the 1024-byte retrieval staging buffer, including values
with an absent optional sub-field. -/
theorem marshal_unmarshal_round_trip (v : RequestData)
    (hlen : (encodeReq v).length < 1024) :
    ∃ b, marshal v = .ok b ∧ unmarshal b = .ok v := by
  have hw : (2048 : Nat) < word := by decide
  refine ⟨⟨(encodeReq v).length + 1024, [(T_DATA_FLD, .vstr (encodeReq v))]⟩,
    ?_, ?_⟩
  · have hnew : UbfBuffer.new ((encodeReq v).length + 1024)
        = .ok ⟨(encodeReq v).length + 1024, []⟩ := by
      unfold UbfBuffer.new Binit
      rw [if_pos ⟨by simp [headerSize], by omega⟩]
    have hadd : UbfBuffer.add_string ⟨(encodeReq v).length + 1024, []⟩
        T_DATA_FLD (encodeReq v)
          = .ok ⟨(encodeReq v).length + 1024,
              [(T_DATA_FLD, .vstr (encodeReq v))]⟩ := by
      have hb := add_string_ok ⟨(encodeReq v).length + 1024, []⟩ T_DATA_FLD
        (encodeReq v) (encodeReq_no_nul v) (by decide) (by decide)
        (by simp [UbfBuf.usedBytes, headerSize]; omega)
      simpa using hb
    simp only [marshal, hnew, hadd]
  · have hv : UbfBuf.occVal ⟨(encodeReq v).length + 1024,
        [(T_DATA_FLD, .vstr (encodeReq v))]⟩ T_DATA_FLD 0
          = some (.vstr (encodeReq v)) := by
      simp [UbfBuf.occVal, UbfBuf.occList, T_DATA_FLD, mkFldId, BFLD_STRING]
    exact unmarshal_ok_of_stored _ (encodeReq v) v
      (get_string_ok_of_fit _ T_DATA_FLD 0 (encodeReq v) hv (by omega))
      (decodeReq_encodeReq v)

/-- The concrete `RequestData` with an absent optional field. -/
def reqQuery : RequestData := ⟨"query", 777, 0, none⟩

/-- C3 witness: `{operation: query, user_id: 777, amount: 0.0,
metadata: absent}` round-trips through marshal/unmarshal. -/
theorem marshal_unmarshal_round_trip_witness :
    ∃ b, marshal reqQuery = .ok b ∧ unmarshal b = .ok reqQuery :=
  marshal_unmarshal_round_trip reqQuery (by decide)

/-- A `RequestData` whose encoded text is longer than 1024 bytes. -/
def reqLong : RequestData := ⟨String.mk (List.replicate 1100 'a'), 1, 0, none⟩

/-- The buffer `marshal` builds for `reqLong`. -/
def reqLongBuf : UbfBuf :=
  ⟨(encodeReq reqLong).length + 1024, [(T_DATA_FLD, .vstr (encodeReq reqLong))]⟩

/-- C3 counterexample: for the concrete value with an 1100-character
operation, `marshal` succeeds but `unmarshal` fails (the stored text
exceeds the 1024-byte staging buffer of `get_string`), so
`unmarshal (marshal v) ≠ ok v`. -/
theorem marshal_unmarshal_counterexample :
    marshal reqLong = .ok reqLongBuf
    ∧ unmarshal reqLongBuf
        = .error (.fieldNotFound
            "T_DATA_FLD: Failed to get string field 167773190 at occ 0") :=
  ⟨rfl, rfl⟩

end Endurox
